import Mathlib

/-!
Verification development for the `@4everlabs/tree` family-tree package.

The connector geometry engine and the connector style resolver are embedded
shallowly from the TypeScript sources:

* `src/types.ts`            — data model (`FamilyMember`, connector config types);
* `src/design-presets.ts`   — presets and `getFamilyTreeConfig`;
* `src/components/family-tree.tsx` — the geometry engine
  (`computeLineSegments`, `drawParentUnit`, `resolveLineStroke`,
  `resolveColorFromClass`, `parseThicknessPx`).

Modelling conventions:

* JS numbers are modelled as `ℚ` (the engine only adds, subtracts, halves and
  compares coordinates, so exact rational arithmetic is a faithful model of the
  float computations on these inputs).
* The DOM measurement step is abstracted as a finite map
  `rects : String → Option RelativeRect` from member id to measured rectangle,
  exactly the `rects` map built in `computeLineSegments` (lines 127-143).
* The DOM colour probe in `resolveColorFromClass` (`document.createElement` /
  `getComputedStyle`, with its memoising cache) is abstracted as an opaque
  environment function `probe : String → String` mapping a utility class token
  to a display colour; the pure token-extraction logic around it is embedded
  verbatim.  The `typeof window === "undefined"` fallback is one particular
  probe environment.
* JS string helpers used by the source (`String.prototype.split`,
  `String.prototype.startsWith`, regex matching in `parseThicknessPx`) are
  embedded structurally over `List Char` so that they compute by kernel
  reduction.
* `Array.prototype.sort` with comparator `(a, b) => a.rect.left - b.rect.left`
  is a stable sort by `rect.left` (ES2019 guarantees stability); a stable sort
  by a total key is uniquely determined, so structural insertion sort
  (`sortByLeft`) is an exact model.
-/

/-- Status of a family member (`FamilyMemberStatus` in `src/types.ts`). -/
inductive MemberStatus where
  | linked
  | manual
  | invite_pending
deriving DecidableEq

/-- `FamilyMember` from `src/types.ts`, restricted to the fields the geometry
engine reads: `id`, `status` and the four nested relationship fields.  Display
fields (name, birthday, avatar, profile links …) are never read by
`computeLineSegments` and are omitted.  Optional arrays (`parents?` etc.) are
modelled as plain lists; the source normalises `undefined` to `[]` with
`?? []` before every use. -/
inductive FamilyMember where
  | mk (id : String) (status : Option MemberStatus)
      (parents siblings children : List FamilyMember)
      (spouse : Option FamilyMember)

/-- Member id projection. -/
def FamilyMember.id : FamilyMember → String
  | .mk i _ _ _ _ _ => i

/-- Member status projection. -/
def FamilyMember.status : FamilyMember → Option MemberStatus
  | .mk _ st _ _ _ _ => st

/-- Member parents projection. -/
def FamilyMember.parents : FamilyMember → List FamilyMember
  | .mk _ _ p _ _ _ => p

/-- Member siblings projection. -/
def FamilyMember.siblings : FamilyMember → List FamilyMember
  | .mk _ _ _ s _ _ => s

/-- Member children projection. -/
def FamilyMember.children : FamilyMember → List FamilyMember
  | .mk _ _ _ _ c _ => c

/-- Member spouse projection. -/
def FamilyMember.spouse : FamilyMember → Option FamilyMember
  | .mk _ _ _ _ _ sp => sp

/-- `RelativeRect` from `src/components/family-tree.tsx` (lines 29-36): a
card's measured geometry relative to the container's content origin. -/
structure RelativeRect where
  left : ℚ
  top : ℚ
  width : ℚ
  height : ℚ
  right : ℚ
  bottom : ℚ
deriving DecidableEq

/-- How the measurement loop builds a `RelativeRect` (lines 135-142):
`right`/`bottom` are derived from `left`/`top` and the size. -/
def mkRelativeRect (left top width height : ℚ) : RelativeRect :=
  { left := left, top := top, width := width, height := height,
    right := left + width, bottom := top + height }

/-- A 2-d point in container coordinates. -/
structure Point where
  x : ℚ
  y : ℚ
deriving DecidableEq

/-- `FamilyTreeLineStyle` from `src/types.ts`. -/
structure LineStyle where
  thickness : String
  colorClass : String
deriving DecidableEq

/-- `FamilyTreeStatusColors` from `src/types.ts`. -/
structure StatusColors where
  linked : String
  invite_pending : String
  manual : String
  default : String
deriving DecidableEq

/-- The `anchors` record of `FamilyTreeConnectorConfig`. -/
structure AnchorConfig where
  coupleInsetPx : ℚ
  verticalGapPx : ℚ
deriving DecidableEq

/-- `FamilyTreeConnectorConfig` from `src/types.ts`. -/
structure FamilyTreeConnectorConfig where
  statusColors : StatusColors
  coupleLine : LineStyle
  trunk : LineStyle
  siblingBus : LineStyle
  drop : LineStyle
  anchors : AnchorConfig
deriving DecidableEq

/-- `baseStatusColors` from `src/design-presets.ts`. -/
def baseStatusColors : StatusColors :=
  { linked := "bg-stroke-default", invite_pending := "bg-stroke-default",
    manual := "bg-stroke-default", default := "bg-stroke-default" }

/-- `defaultPreset` from `src/design-presets.ts`. -/
def defaultPreset : FamilyTreeConnectorConfig :=
  { statusColors := baseStatusColors
    coupleLine := { thickness := "h-px", colorClass := "bg-stroke-default" }
    trunk := { thickness := "w-px", colorClass := "bg-stroke-default" }
    siblingBus := { thickness := "h-px", colorClass := "bg-stroke-default" }
    drop := { thickness := "w-px", colorClass := "bg-stroke-default" }
    anchors := { coupleInsetPx := 0, verticalGapPx := 24 } }

/-- `compactPreset` from `src/design-presets.ts`: spread of `defaultPreset`
with thicker lines and a smaller vertical gap. -/
def compactPreset : FamilyTreeConnectorConfig :=
  { defaultPreset with
    coupleLine := { defaultPreset.coupleLine with thickness := "h-[2px]" }
    trunk := { defaultPreset.trunk with thickness := "w-[2px]" }
    siblingBus := { defaultPreset.siblingBus with thickness := "h-[2px]" }
    drop := { defaultPreset.drop with thickness := "w-[2px]" }
    anchors := { defaultPreset.anchors with verticalGapPx := 20 } }

/-- `contrastPreset` from `src/design-presets.ts`. -/
def contrastPreset : FamilyTreeConnectorConfig :=
  { defaultPreset with
    statusColors :=
      { linked := "bg-copy-primary", invite_pending := "bg-amber-500",
        manual := "bg-stroke-default", default := "bg-copy-primary" }
    coupleLine := { defaultPreset.coupleLine with
                    colorClass := "bg-copy-primary", thickness := "h-[2px]" }
    trunk := { defaultPreset.trunk with
               colorClass := "bg-copy-primary", thickness := "w-[2px]" }
    siblingBus := { defaultPreset.siblingBus with
                    colorClass := "bg-copy-primary", thickness := "h-[2px]" }
    drop := { defaultPreset.drop with
              colorClass := "bg-copy-primary", thickness := "w-[2px]" } }

/-- The `familyTreePresets` record, as a runtime lookup by name.  The source
indexes `Record<FamilyTreePresetName, …>` with `familyTreePresets[preset]`,
which at runtime yields `undefined` for any other string. -/
def familyTreePresets (name : String) : Option FamilyTreeConnectorConfig :=
  if name = "default" then some defaultPreset
  else if name = "compact" then some compactPreset
  else if name = "contrast" then some contrastPreset
  else none

/-- Partial override of `StatusColors` (a nested object inside
`Partial<FamilyTreeConnectorConfig>`); `none` means the key is absent, so the
spread `{...base.statusColors, ...(override?.statusColors ?? {})}` keeps the
base value. -/
structure StatusColorsOverride where
  linked : Option String := none
  invite_pending : Option String := none
  manual : Option String := none
  default : Option String := none

/-- Partial override of a `LineStyle` group. -/
structure LineStyleOverride where
  thickness : Option String := none
  colorClass : Option String := none

/-- Partial override of the `anchors` group. -/
structure AnchorsOverride where
  coupleInsetPx : Option ℚ := none
  verticalGapPx : Option ℚ := none

/-- `Partial<FamilyTreeConnectorConfig>`: each field-group may be absent. -/
structure ConnectorConfigOverride where
  statusColors : Option StatusColorsOverride := none
  coupleLine : Option LineStyleOverride := none
  trunk : Option LineStyleOverride := none
  siblingBus : Option LineStyleOverride := none
  drop : Option LineStyleOverride := none
  anchors : Option AnchorsOverride := none

/-- Key-by-key merge of one status-colours group:
`{...base.statusColors, ...(override?.statusColors ?? {})}`. -/
def mergeStatusColors (base : StatusColors) (ov : Option StatusColorsOverride) :
    StatusColors :=
  match ov with
  | none => base
  | some o =>
    { linked := o.linked.getD base.linked
      invite_pending := o.invite_pending.getD base.invite_pending
      manual := o.manual.getD base.manual
      default := o.default.getD base.default }

/-- Key-by-key merge of one line-style group. -/
def mergeLineStyle (base : LineStyle) (ov : Option LineStyleOverride) : LineStyle :=
  match ov with
  | none => base
  | some o =>
    { thickness := o.thickness.getD base.thickness
      colorClass := o.colorClass.getD base.colorClass }

/-- Key-by-key merge of the anchors group. -/
def mergeAnchors (base : AnchorConfig) (ov : Option AnchorsOverride) : AnchorConfig :=
  match ov with
  | none => base
  | some o =>
    { coupleInsetPx := o.coupleInsetPx.getD base.coupleInsetPx
      verticalGapPx := o.verticalGapPx.getD base.verticalGapPx }

/-- `getFamilyTreeConfig` from `src/design-presets.ts` (lines 94-127).
`base` is `familyTreePresets[preset] ?? familyTreePresets.default`.  The
result lists every field-group explicitly with a per-key merge, so the
top-level `...base, ...override` spreads of the source are completely
superseded by the explicit group entries that follow them (the config has no
other top-level fields). -/
def getFamilyTreeConfig (preset : String) (override : Option ConnectorConfigOverride) :
    FamilyTreeConnectorConfig :=
  let base := (familyTreePresets preset).getD defaultPreset
  { statusColors := mergeStatusColors base.statusColors (override.bind (fun o => o.statusColors))
    coupleLine := mergeLineStyle base.coupleLine (override.bind (fun o => o.coupleLine))
    trunk := mergeLineStyle base.trunk (override.bind (fun o => o.trunk))
    siblingBus := mergeLineStyle base.siblingBus (override.bind (fun o => o.siblingBus))
    drop := mergeLineStyle base.drop (override.bind (fun o => o.drop))
    anchors := mergeAnchors base.anchors (override.bind (fun o => o.anchors)) }

/-- Splits a character list at every occurrence of `sep`, keeping empty
groups — the behaviour of JS `String.prototype.split` with a one-character
separator. -/
def splitCharsOn (sep : Char) : List Char → List (List Char)
  | [] => [[]]
  | c :: cs =>
    match splitCharsOn sep cs with
    | [] => [[]]
    | g :: gs => if c = sep then [] :: g :: gs else (c :: g) :: gs

/-- JS `value.split(sep)` for a one-character separator. -/
def jsSplit (sep : Char) (s : String) : List String :=
  (splitCharsOn sep s.data).map String.mk

/-- JS `s.startsWith(pre)`. -/
def jsStartsWith (s pre : String) : Bool :=
  pre.data.isPrefixOf s.data

/-- Numeric value of a decimal digit character. -/
def digitVal (c : Char) : ℕ := c.toNat - '0'.toNat

/-- Value of a string of decimal digits. -/
def natOfDigits (ds : List Char) : ℕ :=
  ds.foldl (fun n c => 10 * n + digitVal c) 0

/-- Value of `intPart.fracPart` as produced by JS `Number` on the regex
capture `\d+(?:\.\d+)?`. -/
def decimalOfDigits (intPart fracPart : List Char) : ℚ :=
  (natOfDigits intPart : ℚ) + (natOfDigits fracPart : ℚ) / (10 : ℚ) ^ fracPart.length

/-- Longest digit prefix of a character list, with the remainder. -/
def takeDigits : List Char → List Char × List Char
  | [] => ([], [])
  | c :: cs =>
    if c.isDigit then
      match takeDigits cs with
      | (ds, rest) => (c :: ds, rest)
    else ([], c :: cs)

/-- Matches the regex fragment `\d+(?:\.\d+)?` at the head of the input,
returning the numeric value of the capture and the remaining input.  The
optional fractional group participates only when a digit follows the dot,
exactly as the regex backtracks. -/
def matchNumber (cs : List Char) : Option (ℚ × List Char) :=
  match takeDigits cs with
  | ([], _) => none
  | (ds, rest) =>
    match rest with
    | '.' :: rest2 =>
      match takeDigits rest2 with
      | ([], _) => some (decimalOfDigits ds [], rest)
      | (fs, rest3) => some (decimalOfDigits ds fs, rest3)
    | _ => some (decimalOfDigits ds [], rest)

/-- Matches `(?:h|w)-\[(\d+(?:\.\d+)?)px\]` anchored at the head of the
input. -/
def bracketThicknessAt : List Char → Option ℚ
  | c :: '-' :: '[' :: rest =>
    if c = 'h' ∨ c = 'w' then
      match matchNumber rest with
      | some (q, 'p' :: 'x' :: ']' :: _) => some q
      | _ => none
    else none
  | _ => none

/-- Matches `(?:h|w)-(\d+(?:\.\d+)?)` anchored at the head of the input. -/
def numericThicknessAt : List Char → Option ℚ
  | c :: '-' :: rest =>
    if c = 'h' ∨ c = 'w' then (matchNumber rest).map Prod.fst else none
  | _ => none

/-- Leftmost match of an anchored pattern anywhere in the input — the
semantics of JS `String.prototype.match` with an unanchored regex. -/
def scanMatch (p : List Char → Option ℚ) : List Char → Option ℚ
  | [] => none
  | c :: cs =>
    match p (c :: cs) with
    | some q => some q
    | none => scanMatch p cs

/-- The token loop of `parseThicknessPx` (lines 72-79): hairline keywords
first, then the bracketed pixel pattern, then the bare numeric pattern;
falls through to the next token, and to `1` after the last token. -/
def parseThicknessTok : List String → ℚ
  | [] => 1
  | token :: rest =>
    if token = "h-px" ∨ token = "w-px" then 1
    else
      match scanMatch bracketThicknessAt token.data with
      | some q => q
      | none =>
        match scanMatch numericThicknessAt token.data with
        | some q => q
        | none => parseThicknessTok rest

/-- `parseThicknessPx` from `src/components/family-tree.tsx` (lines 71-81). -/
def parseThicknessPx (value : String) : ℚ :=
  parseThicknessTok (jsSplit ' ' value)

/-- The environment's class-token → display-colour mapping.  Stands for the
`document`/`getComputedStyle` probe of `resolveColorFromClass` together with
its memoising `colorCache`; the `typeof window === "undefined"` degradation is
the constant-`"currentColor"` probe. -/
def ColorProbe : Type := String → String

/-- `resolveColorFromClass` (lines 47-69): extract from the class string the
first token with a recognised `bg-`/`text-`/`stroke-` prefix and resolve it
through the environment probe; without a recognised token the colour falls
back to `"currentColor"`. -/
def resolveColorFromClass (probe : ColorProbe) (className : String) : String :=
  match (jsSplit ' ' className).find?
      (fun v => jsStartsWith v "bg-" || jsStartsWith v "text-" || jsStartsWith v "stroke-") with
  | none => "currentColor"
  | some token => probe token

/-- Lookup in the status → colour-class record.  The source indexes
`connectorConfig.statusColors[status]`; the `?? statusColors.default` guard
can never fire because the merged config always carries all four keys. -/
def statusClassFor (sc : StatusColors) : MemberStatus → String
  | .linked => sc.linked
  | .manual => sc.manual
  | .invite_pending => sc.invite_pending

/-- `resolveLineStroke` (lines 103-112): the status class (the unit status's
entry when a status is present, otherwise `statusColors.default`) wins over
the line style's own `colorClass` unless it is the empty string (JS `||` on
strings). -/
def resolveLineStroke (probe : ColorProbe) (sc : StatusColors) (lineStyle : LineStyle)
    (status : Option MemberStatus) : String :=
  let statusClass :=
    match status with
    | some st => statusClassFor sc st
    | none => sc.default
  let className := if statusClass = "" then lineStyle.colorClass else statusClass
  resolveColorFromClass probe className

/-- `LineSegment` (lines 38-43).  The path descriptor `d`, always of the form
`M x1 y1 L x2 y2` in the source, is kept structurally as its two points;
`stroke` is the value of `resolveLineStroke`. -/
structure LineSegment where
  id : String
  d : Point × Point
  stroke : String
  strokeWidth : ℚ
deriving DecidableEq

/-- `addLine` (lines 166-178), producing the segment that the source pushes
onto the accumulator. -/
def addLine (probe : ColorProbe) (sc : StatusColors) (id : String) (p q : Point)
    (lineStyle : LineStyle) (status : Option MemberStatus) : LineSegment :=
  { id := id
    d := (p, q)
    stroke := resolveLineStroke probe sc lineStyle status
    strokeWidth := parseThicknessPx lineStyle.thickness }

/-- `topCenter` (lines 154-157). -/
def topCenter (rect : RelativeRect) : Point :=
  { x := rect.left + rect.width / 2, y := rect.top }

/-- The two sides `sideInner` can be asked for. -/
inductive Side where
  | left
  | right
deriving DecidableEq

/-- `sideInner` (lines 159-162): the inner-facing vertical midpoint of a
card edge, inset horizontally by `coupleInsetPx` toward the card interior. -/
def sideInner (coupleInset : ℚ) (rect : RelativeRect) : Side → Point
  | .left => { x := rect.left + coupleInset, y := rect.top + rect.height / 2 }
  | .right => { x := rect.right - coupleInset, y := rect.top + rect.height / 2 }

/-- `unitStatus` (line 164): the first status found among the members, in
list order. -/
def unitStatus (members : List FamilyMember) : Option MemberStatus :=
  (members.find? (fun member => member.status.isSome)).bind (fun member => member.status)

/-- A parent-set member paired with its measured rectangle (the non-`null`
entries of `parentEntries`, lines 186-191). -/
structure ParentEntry where
  member : FamilyMember
  rect : RelativeRect

/-- A child-set member with its measured rectangle and top-center anchor
(the non-`null` entries of `childEntries`, lines 224-229). -/
structure ChildEntry where
  member : FamilyMember
  rect : RelativeRect
  anchor : Point

/-- `parentEntries` (lines 186-191): find-or-skip resolution of each parent's
measured rectangle. -/
def parentEntriesOf (rects : String → Option RelativeRect)
    (parentMembers : List FamilyMember) : List ParentEntry :=
  parentMembers.filterMap
    (fun member => (rects member.id).map (fun rect => { member := member, rect := rect }))

/-- `childEntries` (lines 224-229): find-or-skip resolution of each child's
measured rectangle, with its top-center anchor. -/
def childEntriesOf (rects : String → Option RelativeRect)
    (childMembers : List FamilyMember) : List ChildEntry :=
  childMembers.filterMap
    (fun member => (rects member.id).map
      (fun rect => { member := member, rect := rect, anchor := topCenter rect }))

/-- The order the comparator `(a, b) => a.rect.left - b.rect.left`
induces on measured parent entries. -/
def byLeft (a b : ParentEntry) : Prop := a.rect.left ≤ b.rect.left

instance : DecidableRel byLeft := fun a b =>
  inferInstanceAs (Decidable (a.rect.left ≤ b.rect.left))

instance : IsTotal ParentEntry byLeft := ⟨fun a b => le_total a.rect.left b.rect.left⟩

instance : IsTrans ParentEntry byLeft := ⟨fun _ _ _ => le_trans⟩

/-- `sortedParentEntries` (line 195): stable sort of the measured parent
entries by ascending `rect.left`.  `Array.prototype.sort` is stable
(ES2019), and a stable sort under a total key comparator is unique, so
insertion sort is an exact model of the source's sort. -/
def sortByLeft : List ParentEntry → List ParentEntry :=
  List.insertionSort byLeft

/-- The junction of a parent unit (lines 197-220): with at least two measured
parents it is the horizontal midpoint of the couple line at the left parent's
anchor height; with exactly one it is that parent's bottom-center; with none
it stays unset (`null`). -/
def unitJunction (coupleInset : ℚ) (rects : String → Option RelativeRect)
    (parentMembers : List FamilyMember) : Option Point :=
  match sortByLeft (parentEntriesOf rects parentMembers) with
  | [] => none
  | [e] => some { x := e.rect.left + e.rect.width / 2, y := e.rect.bottom }
  | l :: r :: _ =>
    some { x := ((sideInner coupleInset l.rect .right).x + (sideInner coupleInset r.rect .left).x) / 2
           y := (sideInner coupleInset l.rect .right).y }

/-- The couple-line segments of a parent unit (lines 199-213): exactly one
segment between the inner anchors of the two leftmost measured parents when
there are at least two, none otherwise. -/
def coupleSegsOf (probe : ColorProbe) (cfg : FamilyTreeConnectorConfig)
    (rects : String → Option RelativeRect) (unitId : String)
    (parentMembers : List FamilyMember) : List LineSegment :=
  match sortByLeft (parentEntriesOf rects parentMembers) with
  | l :: r :: _ =>
    [addLine probe cfg.statusColors (unitId ++ "-couple")
      (sideInner cfg.anchors.coupleInsetPx l.rect .right)
      (sideInner cfg.anchors.coupleInsetPx r.rect .left)
      cfg.coupleLine (unitStatus parentMembers)]
  | _ => []

/-- Fold of JS `Math.min(start, …list)`. -/
def foldMin (start : ℚ) (l : List ℚ) : ℚ := l.foldl min start

/-- Fold of JS `Math.max(start, …list)`. -/
def foldMax (start : ℚ) (l : List ℚ) : ℚ := l.foldl max start

/-- The trunk, sibling-bus and per-child drop segments of a parent unit
(lines 233-259), given an established junction and a non-empty measured child
entry list `c :: cs`:
`childTopY` is the minimum measured child top-Y, the bus sits at
`childTopY - verticalGapPx` and spans `Math.min(...childXs, junction.x)` to
`Math.max(...childXs, junction.x)`; the trunk runs vertically from the
junction down to the bus; each drop runs vertically from the bus to the
child's top-center anchor, coloured by that child's own status. -/
def childConnectorSegs (probe : ColorProbe) (cfg : FamilyTreeConnectorConfig)
    (unitId : String) (status : Option MemberStatus) (junction : Point)
    (c : ChildEntry) (cs : List ChildEntry) : List LineSegment :=
  let childXs := (c :: cs).map (fun e => e.anchor.x)
  let childTopY := foldMin c.anchor.y (cs.map (fun e => e.anchor.y))
  let barY := childTopY - cfg.anchors.verticalGapPx
  let barLeft := foldMin junction.x childXs
  let barRight := foldMax junction.x childXs
  addLine probe cfg.statusColors (unitId ++ "-trunk")
      { x := junction.x, y := junction.y } { x := junction.x, y := barY }
      cfg.trunk status
    :: addLine probe cfg.statusColors (unitId ++ "-bar")
      { x := barLeft, y := barY } { x := barRight, y := barY }
      cfg.siblingBus status
    :: (c :: cs).map (fun e =>
      addLine probe cfg.statusColors (unitId ++ "-drop-" ++ e.member.id)
        { x := e.anchor.x, y := barY } { x := e.anchor.x, y := e.anchor.y }
        cfg.drop e.member.status)

/-- `drawParentUnit` (lines 180-260).  The source's early returns map onto
the match arms: with no measured parent both the couple list and the junction
are empty (this also covers the `parentMembers.length === 0` guard), and with
an empty child set or no measured child only the couple segments are
produced.  The `!junction` guard of line 222 is unreachable (both branches
above it assign a junction) and is covered by the `none` arm. -/
def drawParentUnit (probe : ColorProbe) (cfg : FamilyTreeConnectorConfig)
    (rects : String → Option RelativeRect) (unitId : String)
    (parentMembers childMembers : List FamilyMember) : List LineSegment :=
  let coupleSegs := coupleSegsOf probe cfg rects unitId parentMembers
  match unitJunction cfg.anchors.coupleInsetPx rects parentMembers, childMembers with
  | none, _ => coupleSegs
  | some _, [] => coupleSegs
  | some junction, _ :: _ =>
    match childEntriesOf rects childMembers with
    | [] => coupleSegs
    | c :: cs =>
      coupleSegs ++
        childConnectorSegs probe cfg unitId (unitStatus parentMembers) junction c cs

/-- The per-pass segment computation of `computeLineSegments`
(lines 262-276): the parents unit (child set `[...siblings, root]`) when the
root has parents, then the root's own unit — parent set `[root, spouse]`
under id `"root-couple"` when a spouse exists, else parent set `[root]` under
id `"root-single"` when children exist. -/
def computeLineSegments (probe : ColorProbe) (cfg : FamilyTreeConnectorConfig)
    (rects : String → Option RelativeRect) (rootMember : FamilyMember) :
    List LineSegment :=
  let parents := rootMember.parents
  let parentSegs :=
    if parents.isEmpty then []
    else drawParentUnit probe cfg rects "parents" parents
        (rootMember.siblings ++ [rootMember])
  let children := rootMember.children
  let rootSegs :=
    match rootMember.spouse with
    | some sp => drawParentUnit probe cfg rects "root-couple" [rootMember, sp] children
    | none =>
      if children.isEmpty then []
      else drawParentUnit probe cfg rects "root-single" [rootMember] children
  parentSegs ++ rootSegs

/-- Two strings with equal character data are equal. -/
lemma string_data_inj {s t : String} (h : s.data = t.data) : s = t := by
  cases s
  cases t
  exact congrArg String.mk h

/-- String append is associative. -/
lemma string_append_assoc (u s t : String) : (u ++ s) ++ t = u ++ (s ++ t) :=
  congrArg String.mk (List.append_assoc u.data s.data t.data)

/-- A common prefix cancels on the left of string equality. -/
lemma string_append_cancel_left {u s t : String} (h : u ++ s = u ++ t) : s = t := by
  have h' : u.data ++ s.data = u.data ++ t.data := congrArg String.data h
  exact string_data_inj (List.append_cancel_left h')

/-- Appending a fixed string on the left is injective. -/
lemma string_append_left_injective (u : String) :
    Function.Injective (fun s => u ++ s) := fun _ _ h => string_append_cancel_left h

/-- No drop id suffix is the couple id suffix. -/
lemma dropSuffix_ne_couple (x : String) : "-drop-" ++ x ≠ "-couple" := by
  intro h
  have h' : ('-' :: 'd' :: 'r' :: 'o' :: 'p' :: '-' :: []) ++ x.data
      = ('-' :: 'c' :: 'o' :: 'u' :: 'p' :: 'l' :: 'e' :: []) := congrArg String.data h
  injection h' with h1 h2
  injection h2 with h3 h4
  exact absurd h3 (by decide)

/-- No drop id suffix is the trunk id suffix. -/
lemma dropSuffix_ne_trunk (x : String) : "-drop-" ++ x ≠ "-trunk" := by
  intro h
  have h' : ('-' :: 'd' :: 'r' :: 'o' :: 'p' :: '-' :: []) ++ x.data
      = ('-' :: 't' :: 'r' :: 'u' :: 'n' :: 'k' :: []) := congrArg String.data h
  injection h' with h1 h2
  injection h2 with h3 h4
  exact absurd h3 (by decide)

/-- No drop id suffix is the bus id suffix. -/
lemma dropSuffix_ne_bar (x : String) : "-drop-" ++ x ≠ "-bar" := by
  intro h
  have h' : ('-' :: 'd' :: 'r' :: 'o' :: 'p' :: '-' :: []) ++ x.data
      = ('-' :: 'b' :: 'a' :: 'r' :: []) := congrArg String.data h
  injection h' with h1 h2
  injection h2 with h3 h4
  exact absurd h3 (by decide)

/-- Ids of the parents unit never collide with ids of the root-couple unit. -/
lemma parentsPrefix_ne_rootCouple (a b : String) :
    ("parents" ++ a) ≠ ("root-couple" ++ b) := by
  intro h
  have h' : ('p' :: 'a' :: 'r' :: 'e' :: 'n' :: 't' :: 's' :: []) ++ a.data
      = ('r' :: 'o' :: 'o' :: 't' :: '-' :: 'c' :: 'o' :: 'u' :: 'p' :: 'l' :: 'e' :: []) ++ b.data :=
    congrArg String.data h
  injection h' with h1 h2
  exact absurd h1 (by decide)

/-- Ids of the parents unit never collide with ids of the root-single unit. -/
lemma parentsPrefix_ne_rootSingle (a b : String) :
    ("parents" ++ a) ≠ ("root-single" ++ b) := by
  intro h
  have h' : ('p' :: 'a' :: 'r' :: 'e' :: 'n' :: 't' :: 's' :: []) ++ a.data
      = ('r' :: 'o' :: 'o' :: 't' :: '-' :: 's' :: 'i' :: 'n' :: 'g' :: 'l' :: 'e' :: []) ++ b.data :=
    congrArg String.data h
  injection h' with h1 h2
  exact absurd h1 (by decide)

/-- A `Math.min` fold never exceeds its start value. -/
lemma foldMin_le_start (start : ℚ) (l : List ℚ) : foldMin start l ≤ start := by
  induction l generalizing start with
  | nil => exact le_refl _
  | cons a t ih =>
    calc foldMin (min start a) t ≤ min start a := ih _
    _ ≤ start := min_le_left _ _

/-- A `Math.min` fold never exceeds any list element. -/
lemma foldMin_le_mem (start : ℚ) (l : List ℚ) : ∀ x ∈ l, foldMin start l ≤ x := by
  induction l generalizing start with
  | nil => intro x hx; cases hx
  | cons a t ih =>
    intro x hx
    rcases List.mem_cons.mp hx with h | h
    · subst h
      exact le_trans (foldMin_le_start (min start x) t) (min_le_right _ _)
    · exact ih (min start a) x h

/-- A `Math.min` fold returns its start value or a list element. -/
lemma foldMin_mem (start : ℚ) (l : List ℚ) :
    foldMin start l = start ∨ foldMin start l ∈ l := by
  induction l generalizing start with
  | nil => exact Or.inl rfl
  | cons a t ih =>
    rcases ih (min start a) with h | h
    · rcases le_total start a with hsa | hsa
      · exact Or.inl (by rw [show foldMin start (a :: t) = foldMin (min start a) t from rfl, h, min_eq_left hsa])
      · refine Or.inr (List.mem_cons.mpr (Or.inl ?_))
        rw [show foldMin start (a :: t) = foldMin (min start a) t from rfl, h, min_eq_right hsa]
    · exact Or.inr (List.mem_cons.mpr (Or.inr h))

/-- A `Math.max` fold is at least its start value. -/
lemma foldMax_ge_start (start : ℚ) (l : List ℚ) : start ≤ foldMax start l := by
  induction l generalizing start with
  | nil => exact le_refl _
  | cons a t ih =>
    calc start ≤ max start a := le_max_left _ _
    _ ≤ foldMax (max start a) t := ih _

/-- A `Math.max` fold is at least any list element. -/
lemma foldMax_ge_mem (start : ℚ) (l : List ℚ) : ∀ x ∈ l, x ≤ foldMax start l := by
  induction l generalizing start with
  | nil => intro x hx; cases hx
  | cons a t ih =>
    intro x hx
    rcases List.mem_cons.mp hx with h | h
    · subst h
      exact le_trans (le_max_right _ _) (foldMax_ge_start (max start x) t)
    · exact ih (max start a) x h

/-- A `Math.max` fold returns its start value or a list element. -/
lemma foldMax_mem (start : ℚ) (l : List ℚ) :
    foldMax start l = start ∨ foldMax start l ∈ l := by
  induction l generalizing start with
  | nil => exact Or.inl rfl
  | cons a t ih =>
    rcases ih (max start a) with h | h
    · rcases le_total start a with hsa | hsa
      · refine Or.inr (List.mem_cons.mpr (Or.inl ?_))
        rw [show foldMax start (a :: t) = foldMax (max start a) t from rfl, h, max_eq_right hsa]
      · exact Or.inl (by rw [show foldMax start (a :: t) = foldMax (max start a) t from rfl, h, max_eq_left hsa])
    · exact Or.inr (List.mem_cons.mpr (Or.inr h))

/-- No members, no child entries. -/
lemma childEntriesOf_nil (rects : String → Option RelativeRect) :
    childEntriesOf rects [] = [] := rfl

/-- A non-empty child entry list comes from a non-empty child set. -/
lemma childEntriesOf_ne_nil {rects : String → Option RelativeRect}
    {C : List FamilyMember} {c : ChildEntry} {cs : List ChildEntry}
    (hC : childEntriesOf rects C = c :: cs) : C ≠ [] := by
  intro h
  subst h
  simp [childEntriesOf] at hC

/-- With no measured parent the junction stays unset. -/
lemma unitJunction_of_none {rects : String → Option RelativeRect}
    {P : List FamilyMember} (ci : ℚ)
    (hS : sortByLeft (parentEntriesOf rects P) = []) :
    unitJunction ci rects P = none := by
  unfold unitJunction
  rw [hS]

/-- With exactly one measured parent the junction is its bottom-center. -/
lemma unitJunction_of_one {rects : String → Option RelativeRect}
    {P : List FamilyMember} {e : ParentEntry} (ci : ℚ)
    (hS : sortByLeft (parentEntriesOf rects P) = [e]) :
    unitJunction ci rects P
      = some { x := e.rect.left + e.rect.width / 2, y := e.rect.bottom } := by
  unfold unitJunction
  rw [hS]

/-- With two or more measured parents the junction is the couple-line
midpoint at the left parent's anchor height. -/
lemma unitJunction_of_two {rects : String → Option RelativeRect}
    {P : List FamilyMember} {l r : ParentEntry} {rest : List ParentEntry} (ci : ℚ)
    (hS : sortByLeft (parentEntriesOf rects P) = l :: r :: rest) :
    unitJunction ci rects P
      = some { x := ((sideInner ci l.rect Side.right).x + (sideInner ci r.rect Side.left).x) / 2
               y := (sideInner ci l.rect Side.right).y } := by
  unfold unitJunction
  rw [hS]

/-- With no measured parent there is no couple line. -/
lemma coupleSegsOf_of_none {probe : ColorProbe} {cfg : FamilyTreeConnectorConfig}
    {rects : String → Option RelativeRect} {u : String} {P : List FamilyMember}
    (hS : sortByLeft (parentEntriesOf rects P) = []) :
    coupleSegsOf probe cfg rects u P = [] := by
  unfold coupleSegsOf
  rw [hS]

/-- With exactly one measured parent there is no couple line. -/
lemma coupleSegsOf_of_one {probe : ColorProbe} {cfg : FamilyTreeConnectorConfig}
    {rects : String → Option RelativeRect} {u : String} {P : List FamilyMember}
    {e : ParentEntry} (hS : sortByLeft (parentEntriesOf rects P) = [e]) :
    coupleSegsOf probe cfg rects u P = [] := by
  unfold coupleSegsOf
  rw [hS]

/-- With at least two measured parents the couple line joins the two
leftmost parents' inner anchors. -/
lemma coupleSegsOf_of_two {probe : ColorProbe} {cfg : FamilyTreeConnectorConfig}
    {rects : String → Option RelativeRect} {u : String} {P : List FamilyMember}
    {l r : ParentEntry} {rest : List ParentEntry}
    (hS : sortByLeft (parentEntriesOf rects P) = l :: r :: rest) :
    coupleSegsOf probe cfg rects u P
      = [addLine probe cfg.statusColors (u ++ "-couple")
          (sideInner cfg.anchors.coupleInsetPx l.rect Side.right)
          (sideInner cfg.anchors.coupleInsetPx r.rect Side.left)
          cfg.coupleLine (unitStatus P)] := by
  unfold coupleSegsOf
  rw [hS]

/-- `drawParentUnit` always begins with the couple segments. -/
lemma drawParentUnit_decomp (probe : ColorProbe) (cfg : FamilyTreeConnectorConfig)
    (rects : String → Option RelativeRect) (u : String)
    (P C : List FamilyMember) :
    ∃ tail, drawParentUnit probe cfg rects u P C
      = coupleSegsOf probe cfg rects u P ++ tail := by
  cases hJ : unitJunction cfg.anchors.coupleInsetPx rects P with
  | none => exact ⟨[], by simp [drawParentUnit, hJ]⟩
  | some j =>
    cases C with
    | nil => exact ⟨[], by simp [drawParentUnit, hJ]⟩
    | cons m ms =>
      cases hC : childEntriesOf rects (m :: ms) with
      | nil => exact ⟨[], by simp [drawParentUnit, hJ, hC]⟩
      | cons c cs =>
        exact ⟨childConnectorSegs probe cfg u (unitStatus P) j c cs,
          by simp [drawParentUnit, hJ, hC]⟩

/-- `drawParentUnit` with an established junction and a measured child:
couple segments followed by trunk, bus and drops. -/
lemma drawParentUnit_main {probe : ColorProbe} {cfg : FamilyTreeConnectorConfig}
    {rects : String → Option RelativeRect} {u : String}
    {P C : List FamilyMember} {j : Point} {c : ChildEntry} {cs : List ChildEntry}
    (hJ : unitJunction cfg.anchors.coupleInsetPx rects P = some j)
    (hC : childEntriesOf rects C = c :: cs) :
    drawParentUnit probe cfg rects u P C
      = coupleSegsOf probe cfg rects u P
          ++ childConnectorSegs probe cfg u (unitStatus P) j c cs := by
  cases C with
  | nil => simp [childEntriesOf] at hC
  | cons m ms => simp [drawParentUnit, hJ, hC]

/-- With no established junction or no measured child, only the couple
segments are emitted. -/
lemma drawParentUnit_no_children {probe : ColorProbe} {cfg : FamilyTreeConnectorConfig}
    {rects : String → Option RelativeRect} {u : String}
    {P C : List FamilyMember}
    (h : unitJunction cfg.anchors.coupleInsetPx rects P = none
        ∨ childEntriesOf rects C = []) :
    drawParentUnit probe cfg rects u P C = coupleSegsOf probe cfg rects u P := by
  rcases h with hJ | hC
  · cases C with
    | nil => simp [drawParentUnit, hJ]
    | cons m ms =>
      cases hE : childEntriesOf rects (m :: ms) with
      | nil => simp [drawParentUnit, hJ, hE]
      | cons c cs => simp [drawParentUnit, hJ, hE]
  · cases hJ : unitJunction cfg.anchors.coupleInsetPx rects P with
    | none =>
      cases C with
      | nil => simp [drawParentUnit, hJ]
      | cons m ms => simp [drawParentUnit, hJ, hC]
    | some j =>
      cases C with
      | nil => simp [drawParentUnit, hJ]
      | cons m ms => simp [drawParentUnit, hJ, hC]

/-- Segment ids that differ after the shared unit prefix differ. -/
lemma unit_id_ne {u a b : String} (hab : a ≠ b) : u ++ a ≠ u ++ b :=
  fun h => hab (string_append_cancel_left h)

/-- A drop id differs from any other id of the same unit whose suffix is not
a drop suffix. -/
lemma unit_dropId_ne {u x s : String} (hx : "-drop-" ++ x ≠ s) :
    u ++ "-drop-" ++ x ≠ u ++ s := by
  intro h
  apply hx
  apply string_append_cancel_left (u := u)
  rw [← string_append_assoc]
  exact h

/-- Ids of the trunk, bus and drop segments of one unit. -/
lemma childConnectorSegs_map_id (probe : ColorProbe) (cfg : FamilyTreeConnectorConfig)
    (u : String) (st : Option MemberStatus) (j : Point)
    (c : ChildEntry) (cs : List ChildEntry) :
    (childConnectorSegs probe cfg u st j c cs).map (fun s => s.id)
      = (u ++ "-trunk") :: (u ++ "-bar")
          :: (c :: cs).map (fun e => u ++ "-drop-" ++ e.member.id) := by
  simp [childConnectorSegs, addLine, List.map_map, Function.comp]

/-- Ids of the couple segments of one unit: empty, or the single couple id
when at least two parents are measured. -/
lemma coupleSegsOf_map_id (probe : ColorProbe) (cfg : FamilyTreeConnectorConfig)
    (rects : String → Option RelativeRect) (u : String) (P : List FamilyMember) :
    (coupleSegsOf probe cfg rects u P).map (fun s => s.id) = []
    ∨ ((∃ l r rest, sortByLeft (parentEntriesOf rects P) = l :: r :: rest)
        ∧ (coupleSegsOf probe cfg rects u P).map (fun s => s.id) = [u ++ "-couple"]) := by
  cases hS : sortByLeft (parentEntriesOf rects P) with
  | nil => exact Or.inl (by rw [coupleSegsOf_of_none hS]; rfl)
  | cons l t =>
    cases t with
    | nil => exact Or.inl (by rw [coupleSegsOf_of_one hS]; rfl)
    | cons r rest =>
      refine Or.inr ⟨⟨l, r, rest, rfl⟩, ?_⟩
      rw [coupleSegsOf_of_two hS]
      simp [addLine]

/-- Decomposition of the id list emitted for one parent unit: a couple part
(empty, or the couple id when two parents are measured) followed by a
connector part (empty, or trunk, bus and one drop id per measured child). -/
lemma drawParentUnit_ids (probe : ColorProbe) (cfg : FamilyTreeConnectorConfig)
    (rects : String → Option RelativeRect) (u : String) (P C : List FamilyMember) :
    ∃ cp tp,
      (drawParentUnit probe cfg rects u P C).map (fun s => s.id) = cp ++ tp
      ∧ (cp = []
          ∨ ((∃ l r rest, sortByLeft (parentEntriesOf rects P) = l :: r :: rest)
              ∧ cp = [u ++ "-couple"]))
      ∧ (tp = []
          ∨ ∃ c cs, childEntriesOf rects C = c :: cs
              ∧ tp = (u ++ "-trunk") :: (u ++ "-bar")
                  :: (c :: cs).map (fun e => u ++ "-drop-" ++ e.member.id)) := by
  cases hJ : unitJunction cfg.anchors.coupleInsetPx rects P with
  | none =>
    refine ⟨(coupleSegsOf probe cfg rects u P).map (fun s => s.id), [],
      ?_, coupleSegsOf_map_id probe cfg rects u P, Or.inl rfl⟩
    rw [drawParentUnit_no_children (Or.inl hJ), List.append_nil]
  | some j =>
    cases hC : childEntriesOf rects C with
    | nil =>
      refine ⟨(coupleSegsOf probe cfg rects u P).map (fun s => s.id), [],
        ?_, coupleSegsOf_map_id probe cfg rects u P, Or.inl rfl⟩
      rw [drawParentUnit_no_children (Or.inr hC), List.append_nil]
    | cons c cs =>
      refine ⟨(coupleSegsOf probe cfg rects u P).map (fun s => s.id),
        (u ++ "-trunk") :: (u ++ "-bar")
          :: (c :: cs).map (fun e => u ++ "-drop-" ++ e.member.id),
        ?_, coupleSegsOf_map_id probe cfg rects u P, Or.inr ⟨c, cs, rfl, rfl⟩⟩
      rw [drawParentUnit_main hJ hC, List.map_append, childConnectorSegs_map_id]

/-- Every id emitted for a unit starts with the unit id. -/
lemma mem_drawParentUnit_id_prefix {probe : ColorProbe} {cfg : FamilyTreeConnectorConfig}
    {rects : String → Option RelativeRect} {u : String} {P C : List FamilyMember}
    {x : String}
    (hx : x ∈ (drawParentUnit probe cfg rects u P C).map (fun s => s.id)) :
    ∃ sfx, x = u ++ sfx := by
  obtain ⟨cp, tp, heq, hcp, htp⟩ := drawParentUnit_ids probe cfg rects u P C
  rw [heq] at hx
  rcases List.mem_append.mp hx with h | h
  · rcases hcp with h0 | ⟨_, h0⟩ <;> subst h0
    · cases h
    · rcases List.mem_singleton.mp h with h1
      exact ⟨"-couple", h1⟩
  · rcases htp with h0 | ⟨c, cs, _, h0⟩ <;> subst h0
    · cases h
    · rcases List.mem_cons.mp h with h1 | h1
      · exact ⟨"-trunk", h1⟩
      rcases List.mem_cons.mp h1 with h2 | h2
      · exact ⟨"-bar", h2⟩
      rcases List.mem_map.mp h2 with ⟨e, _, h3⟩
      exact ⟨"-drop-" ++ e.member.id, by rw [← h3, string_append_assoc]⟩

/-- If the measured children of a unit have pairwise-distinct ids, the ids
emitted for that unit are pairwise distinct. -/
lemma drawParentUnit_ids_nodup (probe : ColorProbe) (cfg : FamilyTreeConnectorConfig)
    (rects : String → Option RelativeRect) (u : String) (P C : List FamilyMember)
    (h : ((childEntriesOf rects C).map (fun e => e.member.id)).Nodup) :
    ((drawParentUnit probe cfg rects u P C).map (fun s => s.id)).Nodup := by
  obtain ⟨cp, tp, heq, hcp, htp⟩ := drawParentUnit_ids probe cfg rects u P C
  rw [heq]
  have htpn : tp.Nodup := by
    rcases htp with h0 | ⟨c, cs, hC, h0⟩
    · subst h0; exact List.nodup_nil
    · subst h0
      rw [hC] at h
      refine List.nodup_cons.mpr ⟨?_, List.nodup_cons.mpr ⟨?_, ?_⟩⟩
      · intro hmem
        rcases List.mem_cons.mp hmem with h1 | h1
        · exact unit_id_ne (by decide) h1
        · rcases List.mem_map.mp h1 with ⟨e, _, h2⟩
          exact unit_dropId_ne (dropSuffix_ne_trunk e.member.id) h2
      · intro hmem
        rcases List.mem_map.mp hmem with ⟨e, _, h2⟩
        exact unit_dropId_ne (dropSuffix_ne_bar e.member.id) h2
      · have hmm : (c :: cs).map (fun e => u ++ "-drop-" ++ e.member.id)
            = ((c :: cs).map (fun e => e.member.id)).map (fun i => (u ++ "-drop-") ++ i) := by
          rw [List.map_map]
          rfl
        rw [hmm]
        exact h.map (string_append_left_injective (u ++ "-drop-"))
  rcases hcp with h0 | ⟨_, h0⟩
  · subst h0; exact htpn
  · subst h0
    refine List.nodup_append.mpr ⟨List.nodup_singleton _, htpn, ?_⟩
    intro a ha hb
    rcases List.mem_singleton.mp ha
    rcases htp with h1 | ⟨c, cs, hC, h1⟩
    · subst h1; cases hb
    · subst h1
      rcases List.mem_cons.mp hb with h2 | h2
      · exact unit_id_ne (by decide) h2
      rcases List.mem_cons.mp h2 with h3 | h3
      · exact unit_id_ne (by decide) h3
      rcases List.mem_map.mp h3 with ⟨e, _, h4⟩
      exact unit_dropId_ne (dropSuffix_ne_couple e.member.id) h4

/-- Child-entry resolution skips a member with no measured rectangle. -/
lemma childEntriesOf_cons_none {rects : String → Option RelativeRect}
    {m : FamilyMember} {ms : List FamilyMember} (hm : rects m.id = none) :
    childEntriesOf rects (m :: ms) = childEntriesOf rects ms := by
  simp [childEntriesOf, List.filterMap_cons, hm]

/-- Child-entry resolution keeps a member with a measured rectangle. -/
lemma childEntriesOf_cons_some {rects : String → Option RelativeRect}
    {m : FamilyMember} {ms : List FamilyMember} {rect : RelativeRect}
    (hm : rects m.id = some rect) :
    childEntriesOf rects (m :: ms)
      = { member := m, rect := rect, anchor := topCenter rect } :: childEntriesOf rects ms := by
  simp [childEntriesOf, List.filterMap_cons, hm]

/-- Parent-entry resolution skips a member with no measured rectangle. -/
lemma parentEntriesOf_cons_none {rects : String → Option RelativeRect}
    {m : FamilyMember} {ms : List FamilyMember} (hm : rects m.id = none) :
    parentEntriesOf rects (m :: ms) = parentEntriesOf rects ms := by
  simp [parentEntriesOf, List.filterMap_cons, hm]

/-- Parent-entry resolution keeps a member with a measured rectangle. -/
lemma parentEntriesOf_cons_some {rects : String → Option RelativeRect}
    {m : FamilyMember} {ms : List FamilyMember} {rect : RelativeRect}
    (hm : rects m.id = some rect) :
    parentEntriesOf rects (m :: ms)
      = { member := m, rect := rect } :: parentEntriesOf rects ms := by
  simp [parentEntriesOf, List.filterMap_cons, hm]

/-- Dropping the unmeasured members of a child set does not change its
resolved child entries. -/
lemma childEntriesOf_filter (rects : String → Option RelativeRect)
    (C : List FamilyMember) :
    childEntriesOf rects (C.filter (fun m => (rects m.id).isSome))
      = childEntriesOf rects C := by
  induction C with
  | nil => rfl
  | cons m ms ih =>
    cases hm : rects m.id with
    | none => simpa [List.filter_cons, hm, childEntriesOf_cons_none hm] using ih
    | some rect => simpa [List.filter_cons, hm, childEntriesOf_cons_some hm] using ih

/-- Dropping the unmeasured members of a parent set does not change its
resolved parent entries. -/
lemma parentEntriesOf_filter (rects : String → Option RelativeRect)
    (P : List FamilyMember) :
    parentEntriesOf rects (P.filter (fun m => (rects m.id).isSome))
      = parentEntriesOf rects P := by
  induction P with
  | nil => rfl
  | cons m ms ih =>
    cases hm : rects m.id with
    | none => simpa [List.filter_cons, hm, parentEntriesOf_cons_none hm] using ih
    | some rect => simpa [List.filter_cons, hm, parentEntriesOf_cons_some hm] using ih

/-- Dropping the unmeasured members of the child set leaves the unit's
segments unchanged. -/
lemma drawParentUnit_filter_children (probe : ColorProbe)
    (cfg : FamilyTreeConnectorConfig) (rects : String → Option RelativeRect)
    (u : String) (P C : List FamilyMember) :
    drawParentUnit probe cfg rects u P (C.filter (fun m => (rects m.id).isSome))
      = drawParentUnit probe cfg rects u P C := by
  cases hJ : unitJunction cfg.anchors.coupleInsetPx rects P with
  | none =>
    rw [drawParentUnit_no_children (Or.inl hJ), drawParentUnit_no_children (Or.inl hJ)]
  | some j =>
    cases hE : childEntriesOf rects C with
    | nil =>
      have hE' : childEntriesOf rects (C.filter (fun m => (rects m.id).isSome)) = [] := by
        rw [childEntriesOf_filter, hE]
      rw [drawParentUnit_no_children (Or.inr hE'), drawParentUnit_no_children (Or.inr hE)]
    | cons c cs =>
      have hE' : childEntriesOf rects (C.filter (fun m => (rects m.id).isSome)) = c :: cs := by
        rw [childEntriesOf_filter, hE]
      rw [drawParentUnit_main hJ hE', drawParentUnit_main hJ hE]

/-- The part of a member the geometry engine reads: id and status. -/
def memberKey (m : FamilyMember) : String × Option MemberStatus := (m.id, m.status)

/-- The part of a resolved parent entry the engine reads. -/
def parentKey (e : ParentEntry) : (String × Option MemberStatus) × RelativeRect :=
  (memberKey e.member, e.rect)

/-- The part of a resolved child entry the engine reads. -/
def childKey (e : ChildEntry) : (String × Option MemberStatus) × RelativeRect × Point :=
  (memberKey e.member, e.rect, e.anchor)

/-- `unitStatus` on a member whose status is set. -/
lemma unitStatus_cons_pos {m : FamilyMember} {ms : List FamilyMember}
    (hs : m.status.isSome = true) : unitStatus (m :: ms) = m.status := by
  unfold unitStatus
  have hfind : List.find? (fun member => member.status.isSome) (m :: ms) = some m :=
    List.find?_cons_of_pos ms hs
  rw [hfind]
  rfl

/-- `unitStatus` skips a member whose status is unset. -/
lemma unitStatus_cons_neg {m : FamilyMember} {ms : List FamilyMember}
    (hs : m.status.isSome = false) : unitStatus (m :: ms) = unitStatus ms := by
  unfold unitStatus
  have hfind : List.find? (fun member => member.status.isSome) (m :: ms)
      = List.find? (fun member => member.status.isSome) ms :=
    List.find?_cons_of_neg ms (by simp [hs])
  rw [hfind]

/-- `unitStatus` only reads ids and statuses. -/
lemma unitStatus_congr : ∀ {P₁ P₂ : List FamilyMember},
    P₁.map memberKey = P₂.map memberKey → unitStatus P₁ = unitStatus P₂ := by
  intro P₁
  induction P₁ with
  | nil =>
    intro P₂ h
    cases P₂ with
    | nil => rfl
    | cons b t => simp at h
  | cons a t ih =>
    intro P₂ h
    cases P₂ with
    | nil => simp at h
    | cons b t₂ =>
      simp only [List.map_cons, List.cons.injEq] at h
      obtain ⟨hab, ht⟩ := h
      have hst : a.status = b.status := congrArg Prod.snd hab
      cases hs : a.status.isSome with
      | true =>
        rw [unitStatus_cons_pos hs, unitStatus_cons_pos (by rw [← hst]; exact hs), hst]
      | false =>
        rw [unitStatus_cons_neg hs, unitStatus_cons_neg (by rw [← hst]; exact hs)]
        exact ih ht

/-- Parent-entry resolution only reads ids (and statuses, carried along). -/
lemma parentEntriesOf_congr {rects : String → Option RelativeRect} :
    ∀ {P₁ P₂ : List FamilyMember}, P₁.map memberKey = P₂.map memberKey →
    (parentEntriesOf rects P₁).map parentKey = (parentEntriesOf rects P₂).map parentKey := by
  intro P₁
  induction P₁ with
  | nil =>
    intro P₂ h
    cases P₂ with
    | nil => rfl
    | cons b t => simp at h
  | cons a t ih =>
    intro P₂ h
    cases P₂ with
    | nil => simp at h
    | cons b t₂ =>
      simp only [List.map_cons, List.cons.injEq] at h
      obtain ⟨hab, ht⟩ := h
      have hid : a.id = b.id := congrArg Prod.fst hab
      cases hm : rects a.id with
      | none =>
        rw [parentEntriesOf_cons_none hm, parentEntriesOf_cons_none (by rw [← hid]; exact hm)]
        exact ih ht
      | some rect =>
        rw [parentEntriesOf_cons_some hm, parentEntriesOf_cons_some (by rw [← hid]; exact hm)]
        simp only [List.map_cons, List.cons.injEq]
        refine ⟨?_, ih ht⟩
        simp only [parentKey, memberKey]
        exact Prod.ext (Prod.ext (congrArg Prod.fst hab) (congrArg Prod.snd hab)) rfl

/-- Child-entry resolution only reads ids (statuses and anchors carried). -/
lemma childEntriesOf_congr {rects : String → Option RelativeRect} :
    ∀ {C₁ C₂ : List FamilyMember}, C₁.map memberKey = C₂.map memberKey →
    (childEntriesOf rects C₁).map childKey = (childEntriesOf rects C₂).map childKey := by
  intro C₁
  induction C₁ with
  | nil =>
    intro C₂ h
    cases C₂ with
    | nil => rfl
    | cons b t => simp at h
  | cons a t ih =>
    intro C₂ h
    cases C₂ with
    | nil => simp at h
    | cons b t₂ =>
      simp only [List.map_cons, List.cons.injEq] at h
      obtain ⟨hab, ht⟩ := h
      have hid : a.id = b.id := congrArg Prod.fst hab
      cases hm : rects a.id with
      | none =>
        rw [childEntriesOf_cons_none hm, childEntriesOf_cons_none (by rw [← hid]; exact hm)]
        exact ih ht
      | some rect =>
        rw [childEntriesOf_cons_some hm, childEntriesOf_cons_some (by rw [← hid]; exact hm)]
        simp only [List.map_cons, List.cons.injEq]
        refine ⟨?_, ih ht⟩
        simp only [childKey, memberKey]
        exact Prod.ext (Prod.ext (congrArg Prod.fst hab) (congrArg Prod.snd hab)) rfl

/-- The comparator only reads the rectangle, so ordered insertion commutes
with the `parentKey` projection. -/
lemma orderedInsert_congr : ∀ {l₁ l₂ : List ParentEntry} {e₁ e₂ : ParentEntry},
    parentKey e₁ = parentKey e₂ → l₁.map parentKey = l₂.map parentKey →
    (l₁.orderedInsert byLeft e₁).map parentKey = (l₂.orderedInsert byLeft e₂).map parentKey := by
  intro l₁
  induction l₁ with
  | nil =>
    intro l₂ e₁ e₂ he hl
    cases l₂ with
    | nil => simpa using he
    | cons b t => simp at hl
  | cons f₁ t₁ ih =>
    intro l₂ e₁ e₂ he hl
    cases l₂ with
    | nil => simp at hl
    | cons f₂ t₂ =>
      simp only [List.map_cons, List.cons.injEq] at hl
      obtain ⟨hf, ht⟩ := hl
      have her : e₁.rect = e₂.rect := congrArg Prod.snd he
      have hfr : f₁.rect = f₂.rect := congrArg Prod.snd hf
      by_cases hb : byLeft e₁ f₁
      · have hb₂ : byLeft e₂ f₂ := by
          unfold byLeft at hb ⊢
          rw [← her, ← hfr]
          exact hb
        rw [List.orderedInsert_of_le byLeft t₁ hb, List.orderedInsert_of_le byLeft t₂ hb₂]
        simp only [List.map_cons, List.cons.injEq]
        exact ⟨he, hf, ht⟩
      · have hb₂ : ¬ byLeft e₂ f₂ := by
          unfold byLeft at hb ⊢
          rw [← her, ← hfr]
          exact hb
        simp only [List.orderedInsert]
        rw [if_neg hb, if_neg hb₂]
        simp only [List.map_cons, List.cons.injEq]
        exact ⟨hf, ih he ht⟩

/-- The stable sort commutes with the `parentKey` projection. -/
lemma sortByLeft_congr : ∀ {l₁ l₂ : List ParentEntry},
    l₁.map parentKey = l₂.map parentKey →
    (sortByLeft l₁).map parentKey = (sortByLeft l₂).map parentKey := by
  intro l₁
  induction l₁ with
  | nil =>
    intro l₂ h
    cases l₂ with
    | nil => rfl
    | cons b t => simp at h
  | cons a t ih =>
    intro l₂ h
    cases l₂ with
    | nil => simp at h
    | cons b t₂ =>
      simp only [List.map_cons, List.cons.injEq] at h
      obtain ⟨hab, ht⟩ := h
      exact orderedInsert_congr hab (ih ht)

/-- A drop segment as a function of the child's engine-visible key. -/
def dropSegOfKey (probe : ColorProbe) (sc : StatusColors) (dropStyle : LineStyle)
    (u : String) (barY : ℚ)
    (k : (String × Option MemberStatus) × RelativeRect × Point) : LineSegment :=
  addLine probe sc (u ++ "-drop-" ++ k.1.1)
    { x := k.2.2.x, y := barY } { x := k.2.2.x, y := k.2.2.y } dropStyle k.1.2

/-- Drop segments factor through the child keys. -/
lemma drops_factor (probe : ColorProbe) (sc : StatusColors) (dropStyle : LineStyle)
    (u : String) (barY : ℚ) (l : List ChildEntry) :
    l.map (fun e => addLine probe sc (u ++ "-drop-" ++ e.member.id)
        { x := e.anchor.x, y := barY } { x := e.anchor.x, y := e.anchor.y }
        dropStyle e.member.status)
      = (l.map childKey).map (dropSegOfKey probe sc dropStyle u barY) := by
  rw [List.map_map]
  rfl

/-- Anchor x coordinates factor through the child keys. -/
lemma anchorsX_factor (l : List ChildEntry) :
    l.map (fun e => e.anchor.x) = (l.map childKey).map (fun k => k.2.2.x) := by
  rw [List.map_map]
  rfl

/-- Anchor y coordinates factor through the child keys. -/
lemma anchorsY_factor (l : List ChildEntry) :
    l.map (fun e => e.anchor.y) = (l.map childKey).map (fun k => k.2.2.y) := by
  rw [List.map_map]
  rfl

/-- The trunk/bus/drop segments only read the children's keys. -/
lemma childConnectorSegs_congr {probe : ColorProbe} {cfg : FamilyTreeConnectorConfig}
    {u : String} {st : Option MemberStatus} {j : Point}
    {c₁ c₂ : ChildEntry} {cs₁ cs₂ : List ChildEntry}
    (h : (c₁ :: cs₁).map childKey = (c₂ :: cs₂).map childKey) :
    childConnectorSegs probe cfg u st j c₁ cs₁ = childConnectorSegs probe cfg u st j c₂ cs₂ := by
  have h' := h
  simp only [List.map_cons, List.cons.injEq] at h'
  obtain ⟨hc, hcs⟩ := h'
  have ha : c₁.anchor = c₂.anchor := congrArg (fun k => k.2.2) hc
  have hx : (c₁ :: cs₁).map (fun e => e.anchor.x) = (c₂ :: cs₂).map (fun e => e.anchor.x) := by
    rw [anchorsX_factor, anchorsX_factor, h]
  have hy : cs₁.map (fun e => e.anchor.y) = cs₂.map (fun e => e.anchor.y) := by
    rw [anchorsY_factor, anchorsY_factor, hcs]
  simp only [childConnectorSegs]
  rw [ha, hy, hx, drops_factor, drops_factor, h]

/-- The junction only reads the parents' keys. -/
lemma unitJunction_congr {ci : ℚ} {rects : String → Option RelativeRect}
    {P₁ P₂ : List FamilyMember} (h : P₁.map memberKey = P₂.map memberKey) :
    unitJunction ci rects P₁ = unitJunction ci rects P₂ := by
  have hs : (sortByLeft (parentEntriesOf rects P₁)).map parentKey
      = (sortByLeft (parentEntriesOf rects P₂)).map parentKey :=
    sortByLeft_congr (parentEntriesOf_congr h)
  cases h₁ : sortByLeft (parentEntriesOf rects P₁) with
  | nil =>
    rw [h₁] at hs
    cases hh : sortByLeft (parentEntriesOf rects P₂) with
    | nil => rw [unitJunction_of_none ci h₁, unitJunction_of_none ci hh]
    | cons b t => rw [hh] at hs; simp at hs
  | cons e₁ t₁ =>
    rw [h₁] at hs
    cases hh : sortByLeft (parentEntriesOf rects P₂) with
    | nil => rw [hh] at hs; simp at hs
    | cons e₂ t₂ =>
      rw [hh] at hs
      simp only [List.map_cons, List.cons.injEq] at hs
      obtain ⟨he, ht⟩ := hs
      have her : e₁.rect = e₂.rect := congrArg Prod.snd he
      cases t₁ with
      | nil =>
        cases t₂ with
        | nil => rw [unitJunction_of_one ci h₁, unitJunction_of_one ci hh, her]
        | cons r₂ t₂x => simp at ht
      | cons r₁ t₁x =>
        cases t₂ with
        | nil => simp at ht
        | cons r₂ t₂x =>
          simp only [List.map_cons, List.cons.injEq] at ht
          obtain ⟨hr, _⟩ := ht
          have hrr : r₁.rect = r₂.rect := congrArg Prod.snd hr
          rw [unitJunction_of_two ci h₁, unitJunction_of_two ci hh, her, hrr]

/-- The couple segments only read the parents' keys. -/
lemma coupleSegsOf_congr {probe : ColorProbe} {cfg : FamilyTreeConnectorConfig}
    {rects : String → Option RelativeRect} {u : String}
    {P₁ P₂ : List FamilyMember} (h : P₁.map memberKey = P₂.map memberKey) :
    coupleSegsOf probe cfg rects u P₁ = coupleSegsOf probe cfg rects u P₂ := by
  have hs : (sortByLeft (parentEntriesOf rects P₁)).map parentKey
      = (sortByLeft (parentEntriesOf rects P₂)).map parentKey :=
    sortByLeft_congr (parentEntriesOf_congr h)
  cases h₁ : sortByLeft (parentEntriesOf rects P₁) with
  | nil =>
    rw [h₁] at hs
    cases hh : sortByLeft (parentEntriesOf rects P₂) with
    | nil => rw [coupleSegsOf_of_none h₁, coupleSegsOf_of_none hh]
    | cons b t => rw [hh] at hs; simp at hs
  | cons e₁ t₁ =>
    rw [h₁] at hs
    cases hh : sortByLeft (parentEntriesOf rects P₂) with
    | nil => rw [hh] at hs; simp at hs
    | cons e₂ t₂ =>
      rw [hh] at hs
      simp only [List.map_cons, List.cons.injEq] at hs
      obtain ⟨he, ht⟩ := hs
      have her : e₁.rect = e₂.rect := congrArg Prod.snd he
      cases t₁ with
      | nil =>
        cases t₂ with
        | nil => rw [coupleSegsOf_of_one h₁, coupleSegsOf_of_one hh]
        | cons r₂ t₂x => simp at ht
      | cons r₁ t₁x =>
        cases t₂ with
        | nil => simp at ht
        | cons r₂ t₂x =>
          simp only [List.map_cons, List.cons.injEq] at ht
          obtain ⟨hr, _⟩ := ht
          have hrr : r₁.rect = r₂.rect := congrArg Prod.snd hr
          rw [coupleSegsOf_of_two h₁, coupleSegsOf_of_two hh, her, hrr,
            unitStatus_congr h]

/-- A whole parent unit only reads the keys of its parent and child sets. -/
lemma drawParentUnit_congr {probe : ColorProbe} {cfg : FamilyTreeConnectorConfig}
    {rects : String → Option RelativeRect} {u : String}
    {P₁ P₂ C₁ C₂ : List FamilyMember}
    (hP : P₁.map memberKey = P₂.map memberKey)
    (hC : C₁.map memberKey = C₂.map memberKey) :
    drawParentUnit probe cfg rects u P₁ C₁ = drawParentUnit probe cfg rects u P₂ C₂ := by
  have hJ : unitJunction cfg.anchors.coupleInsetPx rects P₁
      = unitJunction cfg.anchors.coupleInsetPx rects P₂ := unitJunction_congr hP
  have hcs : coupleSegsOf probe cfg rects u P₁ = coupleSegsOf probe cfg rects u P₂ :=
    coupleSegsOf_congr hP
  have hce : (childEntriesOf rects C₁).map childKey = (childEntriesOf rects C₂).map childKey :=
    childEntriesOf_congr hC
  cases hj₁ : unitJunction cfg.anchors.coupleInsetPx rects P₁ with
  | none =>
    have hj₂ : unitJunction cfg.anchors.coupleInsetPx rects P₂ = none := by
      rw [← hJ, hj₁]
    rw [drawParentUnit_no_children (Or.inl hj₁), drawParentUnit_no_children (Or.inl hj₂), hcs]
  | some j =>
    have hj₂ : unitJunction cfg.anchors.coupleInsetPx rects P₂ = some j := by
      rw [← hJ, hj₁]
    cases he₁ : childEntriesOf rects C₁ with
    | nil =>
      rw [he₁] at hce
      have he₂ : childEntriesOf rects C₂ = [] := by
        cases hh : childEntriesOf rects C₂ with
        | nil => rfl
        | cons c t => rw [hh] at hce; simp at hce
      rw [drawParentUnit_no_children (Or.inr he₁), drawParentUnit_no_children (Or.inr he₂), hcs]
    | cons c₁ cs₁ =>
      rw [he₁] at hce
      cases he₂ : childEntriesOf rects C₂ with
      | nil => rw [he₂] at hce; simp at hce
      | cons c₂ cs₂ =>
        rw [he₂] at hce
        rw [drawParentUnit_main hj₁ he₁, drawParentUnit_main hj₂ he₂, hcs,
          unitStatus_congr hP, childConnectorSegs_congr hce]

/-- One measurement pass only reads the root's own key and the keys of its
one-level neighbourhood (parents, siblings, children, spouse). -/
lemma computeLineSegments_congr {probe : ColorProbe} {cfg : FamilyTreeConnectorConfig}
    {rects : String → Option RelativeRect} {r₁ r₂ : FamilyMember}
    (hkey : memberKey r₁ = memberKey r₂)
    (hp : r₁.parents.map memberKey = r₂.parents.map memberKey)
    (hs : r₁.siblings.map memberKey = r₂.siblings.map memberKey)
    (hc : r₁.children.map memberKey = r₂.children.map memberKey)
    (hsp : r₁.spouse.map memberKey = r₂.spouse.map memberKey) :
    computeLineSegments probe cfg rects r₁ = computeLineSegments probe cfg rects r₂ := by
  have hemp : r₁.parents.isEmpty = r₂.parents.isEmpty := by
    cases hp₁ : r₁.parents with
    | nil =>
      cases hp₂ : r₂.parents with
      | nil => rfl
      | cons b t => rw [hp₁, hp₂] at hp; simp at hp
    | cons a t =>
      cases hp₂ : r₂.parents with
      | nil => rw [hp₁, hp₂] at hp; simp at hp
      | cons b t₂ => rfl
  have hcemp : r₁.children.isEmpty = r₂.children.isEmpty := by
    cases hc₁ : r₁.children with
    | nil =>
      cases hc₂ : r₂.children with
      | nil => rfl
      | cons b t => rw [hc₁, hc₂] at hc; simp at hc
    | cons a t =>
      cases hc₂ : r₂.children with
      | nil => rw [hc₁, hc₂] at hc; simp at hc
      | cons b t₂ => rfl
  have hchildSet : (r₁.siblings ++ [r₁]).map memberKey = (r₂.siblings ++ [r₂]).map memberKey := by
    rw [List.map_append, List.map_append, hs]
    simp [hkey]
  simp only [computeLineSegments]
  congr 1
  · rw [hemp]
    cases hv : r₂.parents.isEmpty with
    | true => rfl
    | false =>
      simp only [Bool.false_eq_true, if_false]
      exact drawParentUnit_congr hp hchildSet
  · cases hsp₁ : r₁.spouse with
    | none =>
      cases hsp₂ : r₂.spouse with
      | none =>
        rw [hcemp]
        cases hv : r₂.children.isEmpty with
        | true => rfl
        | false =>
          simp only [Bool.false_eq_true, if_false]
          exact drawParentUnit_congr (by simp [hkey]) hc
      | some s₂ => rw [hsp₁, hsp₂] at hsp; simp at hsp
    | some s₁ =>
      cases hsp₂ : r₂.spouse with
      | none => rw [hsp₁, hsp₂] at hsp; simp at hsp
      | some s₂ =>
        rw [hsp₁, hsp₂] at hsp
        simp only [Option.map_some', Option.some.injEq] at hsp
        exact drawParentUnit_congr (by simp [hkey, hsp]) hc

/-- A member stripped to the fields the engine reads from a relative: its
nested relationship arrays are discarded. -/
def pruneShallow (m : FamilyMember) : FamilyMember :=
  .mk m.id m.status [] [] [] none

/-- A root member restricted to its one-level neighbourhood: every relative
keeps only its id and status, and deeper generations disappear. -/
def pruneDeep (m : FamilyMember) : FamilyMember :=
  .mk m.id m.status (m.parents.map pruneShallow) (m.siblings.map pruneShallow)
    (m.children.map pruneShallow) (m.spouse.map pruneShallow)

/-- Pruning a relative keeps its key. -/
lemma memberKey_pruneShallow (m : FamilyMember) : memberKey (pruneShallow m) = memberKey m := rfl

/-- Pruning the root keeps its key. -/
lemma memberKey_pruneDeep (m : FamilyMember) : memberKey (pruneDeep m) = memberKey m := rfl

/-- Pruning a member list keeps the key list. -/
lemma map_memberKey_pruneShallow (l : List FamilyMember) :
    (l.map pruneShallow).map memberKey = l.map memberKey := by
  rw [List.map_map]
  rfl

/-- The identity colour probe: a rendering environment mapping every class
token to itself (injective, so class choices stay observable). -/
def idProbe : ColorProbe := fun token => token

/-- A member with no nested relationships, for concrete scenarios. -/
def leafMember (i : String) (st : Option MemberStatus) : FamilyMember :=
  .mk i st [] [] [] none

/-- Every resolved child entry records its member's measured rectangle, a
top-center anchor, and a member of the child set. -/
lemma childEntriesOf_mem_spec {rects : String → Option RelativeRect}
    {C : List FamilyMember} :
    ∀ e ∈ childEntriesOf rects C,
      rects e.member.id = some e.rect ∧ e.anchor = topCenter e.rect ∧ e.member ∈ C := by
  intro e he
  rcases List.mem_filterMap.mp he with ⟨m, hm, hf⟩
  cases hr : rects m.id with
  | none => rw [hr] at hf; simp at hf
  | some rect =>
    rw [hr] at hf
    simp only [Option.map_some'] at hf
    rcases Option.some.inj hf with rfl
    exact ⟨hr, rfl, hm⟩

/-- C7: for every preset-name argument that is not one of `"default"`,
`"compact"`, `"contrast"`, and for every override, resolving the
configuration produces exactly the same result as resolving `"default"` with
that override.  (The resolver is a total Lean function, so it never
errors.) -/
theorem unknown_preset_falls_back_to_default (name : String)
    (ov : Option ConnectorConfigOverride)
    (h₁ : name ≠ "default") (h₂ : name ≠ "compact") (h₃ : name ≠ "contrast") :
    getFamilyTreeConfig name ov = getFamilyTreeConfig "default" ov := by
  unfold getFamilyTreeConfig familyTreePresets
  rw [if_neg h₁, if_neg h₂, if_neg h₃, if_pos rfl]
  rfl

/-- Witness for C7 at the concrete unknown name `"custom"`. -/
theorem unknown_preset_falls_back_to_default_witness :
    (("custom" : String) ≠ "default" ∧ ("custom" : String) ≠ "compact"
      ∧ ("custom" : String) ≠ "contrast")
    ∧ getFamilyTreeConfig "custom" none = getFamilyTreeConfig "default" none :=
  ⟨⟨by decide, by decide, by decide⟩,
    unknown_preset_falls_back_to_default "custom" none (by decide) (by decide) (by decide)⟩

/-- The compact-preset override of the C6 scenario:
`{anchors:{verticalGapPx:32}}`. -/
def gapOverride : ConnectorConfigOverride :=
  { anchors := some { verticalGapPx := some 32 } }

/-- C6: the resolved configuration merges the override shallowly per
field-group — an absent group keeps the preset's whole group, an absent key
of a supplied group keeps the preset's value for that key, a supplied key
replaces it — and in particular resolving preset `"compact"` with override
`{anchors:{verticalGapPx:32}}` keeps compact's own `coupleInsetPx` default
`0` while setting `verticalGapPx` to `32`. -/
theorem config_merge_per_group (name : String) (ov : ConnectorConfigOverride) :
    (ov.anchors = none →
        (getFamilyTreeConfig name (some ov)).anchors
          = ((familyTreePresets name).getD defaultPreset).anchors)
    ∧ (∀ a, ov.anchors = some a → a.coupleInsetPx = none →
        (getFamilyTreeConfig name (some ov)).anchors.coupleInsetPx
          = ((familyTreePresets name).getD defaultPreset).anchors.coupleInsetPx)
    ∧ (∀ a v, ov.anchors = some a → a.verticalGapPx = some v →
        (getFamilyTreeConfig name (some ov)).anchors.verticalGapPx = v)
    ∧ (∀ sc, ov.statusColors = some sc → sc.invite_pending = none →
        (getFamilyTreeConfig name (some ov)).statusColors.invite_pending
          = ((familyTreePresets name).getD defaultPreset).statusColors.invite_pending)
    ∧ (∀ sc v, ov.statusColors = some sc → sc.linked = some v →
        (getFamilyTreeConfig name (some ov)).statusColors.linked = v)
    ∧ (∀ ls, ov.coupleLine = some ls → ls.thickness = none →
        (getFamilyTreeConfig name (some ov)).coupleLine.thickness
          = ((familyTreePresets name).getD defaultPreset).coupleLine.thickness)
    ∧ (∀ ls v, ov.coupleLine = some ls → ls.colorClass = some v →
        (getFamilyTreeConfig name (some ov)).coupleLine.colorClass = v)
    ∧ (∀ ls, ov.trunk = some ls → ls.colorClass = none →
        (getFamilyTreeConfig name (some ov)).trunk.colorClass
          = ((familyTreePresets name).getD defaultPreset).trunk.colorClass)
    ∧ (∀ ls, ov.siblingBus = some ls → ls.colorClass = none →
        (getFamilyTreeConfig name (some ov)).siblingBus.colorClass
          = ((familyTreePresets name).getD defaultPreset).siblingBus.colorClass)
    ∧ (∀ ls, ov.drop = some ls → ls.colorClass = none →
        (getFamilyTreeConfig name (some ov)).drop.colorClass
          = ((familyTreePresets name).getD defaultPreset).drop.colorClass)
    ∧ ((getFamilyTreeConfig "compact" (some gapOverride)).anchors.coupleInsetPx = 0
        ∧ (getFamilyTreeConfig "compact" (some gapOverride)).anchors.verticalGapPx = 32) := by
  refine ⟨?_, ?_, ?_, ?_, ?_, ?_, ?_, ?_, ?_, ?_, by decide, by decide⟩
  · intro ha
    simp [getFamilyTreeConfig, mergeAnchors, ha]
  · intro a ha hk
    simp [getFamilyTreeConfig, mergeAnchors, ha, hk]
  · intro a v ha hk
    simp [getFamilyTreeConfig, mergeAnchors, ha, hk]
  · intro sc ha hk
    simp [getFamilyTreeConfig, mergeStatusColors, ha, hk]
  · intro sc v ha hk
    simp [getFamilyTreeConfig, mergeStatusColors, ha, hk]
  · intro ls ha hk
    simp [getFamilyTreeConfig, mergeLineStyle, ha, hk]
  · intro ls v ha hk
    simp [getFamilyTreeConfig, mergeLineStyle, ha, hk]
  · intro ls ha hk
    simp [getFamilyTreeConfig, mergeLineStyle, ha, hk]
  · intro ls ha hk
    simp [getFamilyTreeConfig, mergeLineStyle, ha, hk]
  · intro ls ha hk
    simp [getFamilyTreeConfig, mergeLineStyle, ha, hk]

/-- Witness for C6: the compact/`verticalGapPx:32` scenario, driven through
the general merge theorem. -/
theorem config_merge_per_group_witness :
    gapOverride.anchors = some { verticalGapPx := some 32 }
    ∧ (getFamilyTreeConfig "compact" (some gapOverride)).anchors.coupleInsetPx
        = ((familyTreePresets "compact").getD defaultPreset).anchors.coupleInsetPx
    ∧ (getFamilyTreeConfig "compact" (some gapOverride)).anchors.verticalGapPx = 32 :=
  ⟨rfl,
    (config_merge_per_group "compact" gapOverride).2.1 _ rfl rfl,
    (config_merge_per_group "compact" gapOverride).2.2.1 _ 32 rfl rfl⟩

/-- C3: when exactly one parent of a unit has a measured rectangle, no
couple-line segment is emitted for that unit, and the junction is the
bottom-center of that parent's rectangle (x at `left + width / 2`, y at
`bottom`). -/
theorem single_parent_junction_no_couple (probe : ColorProbe)
    (cfg : FamilyTreeConnectorConfig) (rects : String → Option RelativeRect)
    (u : String) (P C : List FamilyMember) (e : ParentEntry)
    (hS : parentEntriesOf rects P = [e]) :
    coupleSegsOf probe cfg rects u P = []
    ∧ (∀ s ∈ drawParentUnit probe cfg rects u P C, s.id ≠ u ++ "-couple")
    ∧ unitJunction cfg.anchors.coupleInsetPx rects P
        = some { x := e.rect.left + e.rect.width / 2, y := e.rect.bottom } := by
  have hsort : sortByLeft (parentEntriesOf rects P) = [e] := by rw [hS]; rfl
  refine ⟨coupleSegsOf_of_one hsort, ?_, unitJunction_of_one cfg.anchors.coupleInsetPx hsort⟩
  intro s hs hid
  obtain ⟨cp, tp, heq, hcp, htp⟩ := drawParentUnit_ids probe cfg rects u P C
  have hcpnil : cp = [] := by
    rcases hcp with h0 | ⟨⟨l, r, rest, hlr⟩, _⟩
    · exact h0
    · rw [hsort] at hlr
      injection hlr with hx hy
      exact List.noConfusion hy
  subst hcpnil
  have hmem : s.id ∈ tp := by
    have hmap := List.mem_map_of_mem (fun s => s.id) hs
    rw [heq] at hmap
    simpa using hmap
  rcases htp with h0 | ⟨c, cs, hC, h0⟩
  · subst h0; cases hmem
  · subst h0
    rcases List.mem_cons.mp hmem with h1 | h1
    · have hcontra : u ++ "-trunk" = u ++ "-couple" := by rw [← h1, hid]
      exact unit_id_ne (by decide) hcontra
    rcases List.mem_cons.mp h1 with h2 | h2
    · have hcontra : u ++ "-bar" = u ++ "-couple" := by rw [← h2, hid]
      exact unit_id_ne (by decide) hcontra
    rcases List.mem_map.mp h2 with ⟨d, _, h3⟩
    have hcontra : u ++ "-drop-" ++ d.member.id = u ++ "-couple" := by rw [h3, hid]
    exact unit_dropId_ne (dropSuffix_ne_couple d.member.id) hcontra

/-- Measured rectangle of the single parent in the C3 witness scenario. -/
def rectF : RelativeRect :=
  { left := 0, top := 0, width := 10, height := 20, right := 10, bottom := 20 }

/-- Measured rectangle of the second parent in the couple scenarios. -/
def rectM : RelativeRect :=
  { left := 30, top := 0, width := 10, height := 20, right := 40, bottom := 20 }

/-- Measured rectangle of the first child in the witness scenarios. -/
def rectK : RelativeRect :=
  { left := 2, top := 70, width := 10, height := 20, right := 12, bottom := 90 }

/-- Measured rectangle of the second child in the witness scenarios. -/
def rectQ : RelativeRect :=
  { left := 44, top := 64, width := 10, height := 20, right := 54, bottom := 84 }

/-- Measured rectangles of the witness scenarios: parents `"f"`/`"m"`,
children `"k"`/`"q"`; every other id (for example `"z"`) is unmeasured. -/
def rectsA : String → Option RelativeRect := fun i =>
  if i = "f" then some rectF
  else if i = "m" then some rectM
  else if i = "k" then some rectK
  else if i = "q" then some rectQ
  else none

/-- Witness for C3: one measured parent `"f"`, one child `"k"`. -/
theorem single_parent_junction_no_couple_witness :
    parentEntriesOf rectsA [leafMember "f" none] = [{ member := leafMember "f" none, rect := rectF }]
    ∧ (coupleSegsOf idProbe defaultPreset rectsA "root-single" [leafMember "f" none] = []
        ∧ (∀ s ∈ drawParentUnit idProbe defaultPreset rectsA "root-single"
              [leafMember "f" none] [leafMember "k" none], s.id ≠ "root-single" ++ "-couple")
        ∧ unitJunction defaultPreset.anchors.coupleInsetPx rectsA [leafMember "f" none]
            = some { x := rectF.left + rectF.width / 2, y := rectF.bottom }) :=
  ⟨rfl,
    single_parent_junction_no_couple idProbe defaultPreset rectsA "root-single"
      [leafMember "f" none] [leafMember "k" none]
      { member := leafMember "f" none, rect := rectF } rfl⟩

/-- C2: with at least two measured parents, the parents are sorted by
`rect.left` ascending (the sorted list is a permutation of the measured
entries, its head is leftmost and its second element is left of all later
entries); the couple line runs from the vertical midpoint of the left
parent's right edge inset by `coupleInsetPx` to the vertical midpoint of the
right parent's left edge inset by `coupleInsetPx`; the junction's x is the
arithmetic mean of the endpoint xs, so the endpoints are symmetric around
it, and the junction's y is the left endpoint's y. -/
theorem couple_line_symmetric_junction (probe : ColorProbe)
    (cfg : FamilyTreeConnectorConfig) (rects : String → Option RelativeRect)
    (u : String) (P C : List FamilyMember) (l r : ParentEntry)
    (rest : List ParentEntry)
    (hS : sortByLeft (parentEntriesOf rects P) = l :: r :: rest) :
    (∃ restSegs, drawParentUnit probe cfg rects u P C
        = addLine probe cfg.statusColors (u ++ "-couple")
            { x := l.rect.right - cfg.anchors.coupleInsetPx
              y := l.rect.top + l.rect.height / 2 }
            { x := r.rect.left + cfg.anchors.coupleInsetPx
              y := r.rect.top + r.rect.height / 2 }
            cfg.coupleLine (unitStatus P) :: restSegs)
    ∧ unitJunction cfg.anchors.coupleInsetPx rects P
        = some { x := ((l.rect.right - cfg.anchors.coupleInsetPx)
                        + (r.rect.left + cfg.anchors.coupleInsetPx)) / 2
                 y := l.rect.top + l.rect.height / 2 }
    ∧ ((l.rect.right - cfg.anchors.coupleInsetPx)
          + (r.rect.left + cfg.anchors.coupleInsetPx)) / 2
        - (l.rect.right - cfg.anchors.coupleInsetPx)
      = (r.rect.left + cfg.anchors.coupleInsetPx)
        - ((l.rect.right - cfg.anchors.coupleInsetPx)
            + (r.rect.left + cfg.anchors.coupleInsetPx)) / 2
    ∧ l.rect.left ≤ r.rect.left
    ∧ (∀ e ∈ rest, r.rect.left ≤ e.rect.left)
    ∧ (l :: r :: rest).Perm (parentEntriesOf rects P) := by
  have hsorted : List.Sorted byLeft (sortByLeft (parentEntriesOf rects P)) :=
    List.sorted_insertionSort byLeft (parentEntriesOf rects P)
  rw [hS] at hsorted
  obtain ⟨hl, hsorted₂⟩ := List.sorted_cons.mp hsorted
  obtain ⟨hr, _⟩ := List.sorted_cons.mp hsorted₂
  have hperm : (sortByLeft (parentEntriesOf rects P)).Perm (parentEntriesOf rects P) :=
    List.perm_insertionSort byLeft (parentEntriesOf rects P)
  rw [hS] at hperm
  obtain ⟨tail, htail⟩ := drawParentUnit_decomp probe cfg rects u P C
  refine ⟨⟨tail, ?_⟩, ?_, by ring, hl r (List.mem_cons_self r rest), hr, hperm⟩
  · rw [htail, coupleSegsOf_of_two hS]
    rfl
  · rw [unitJunction_of_two cfg.anchors.coupleInsetPx hS]
    rfl

/-- Witness for C2: parents `"f"` and `"m"`, root child `"k"`. -/
theorem couple_line_symmetric_junction_witness :
    sortByLeft (parentEntriesOf rectsA [leafMember "f" none, leafMember "m" none])
      = [{ member := leafMember "f" none, rect := rectF },
         { member := leafMember "m" none, rect := rectM }]
    ∧ ((∃ restSegs, drawParentUnit idProbe defaultPreset rectsA "parents"
          [leafMember "f" none, leafMember "m" none] [leafMember "k" none]
          = addLine idProbe defaultPreset.statusColors ("parents" ++ "-couple")
              { x := rectF.right - defaultPreset.anchors.coupleInsetPx
                y := rectF.top + rectF.height / 2 }
              { x := rectM.left + defaultPreset.anchors.coupleInsetPx
                y := rectM.top + rectM.height / 2 }
              defaultPreset.coupleLine
              (unitStatus [leafMember "f" none, leafMember "m" none]) :: restSegs)
        ∧ unitJunction defaultPreset.anchors.coupleInsetPx rectsA
            [leafMember "f" none, leafMember "m" none]
          = some { x := ((rectF.right - defaultPreset.anchors.coupleInsetPx)
                          + (rectM.left + defaultPreset.anchors.coupleInsetPx)) / 2
                   y := rectF.top + rectF.height / 2 }
        ∧ ((rectF.right - defaultPreset.anchors.coupleInsetPx)
              + (rectM.left + defaultPreset.anchors.coupleInsetPx)) / 2
            - (rectF.right - defaultPreset.anchors.coupleInsetPx)
          = (rectM.left + defaultPreset.anchors.coupleInsetPx)
            - ((rectF.right - defaultPreset.anchors.coupleInsetPx)
                + (rectM.left + defaultPreset.anchors.coupleInsetPx)) / 2
        ∧ rectF.left ≤ rectM.left
        ∧ (∀ e ∈ ([] : List ParentEntry), rectM.left ≤ e.rect.left)
        ∧ ([{ member := leafMember "f" none, rect := rectF },
            { member := leafMember "m" none, rect := rectM }] : List ParentEntry).Perm
            (parentEntriesOf rectsA [leafMember "f" none, leafMember "m" none])) :=
  ⟨rfl,
    couple_line_symmetric_junction idProbe defaultPreset rectsA "parents"
      [leafMember "f" none, leafMember "m" none] [leafMember "k" none]
      { member := leafMember "f" none, rect := rectF }
      { member := leafMember "m" none, rect := rectM } [] rfl⟩

set_option maxHeartbeats 2000000 in
/-- C1: with an established junction and at least one measured child, the
unit's segments contain a vertical trunk at the junction's x from the
junction's y down to the bus height, followed by a horizontal sibling bus at
`min(child top-Y) - verticalGapPx` whose x-range is exactly the minimum and
maximum of the measured children's top-center xs together with the
junction's x — so the bus always contains the junction's x — followed by
the child drops. -/
theorem sibling_bus_and_trunk_geometry (probe : ColorProbe)
    (cfg : FamilyTreeConnectorConfig) (rects : String → Option RelativeRect)
    (u : String) (P C : List FamilyMember) (j : Point) (c : ChildEntry)
    (cs : List ChildEntry)
    (hJ : unitJunction cfg.anchors.coupleInsetPx rects P = some j)
    (hC : childEntriesOf rects C = c :: cs) :
    ∃ pre drops barY xmin xmax,
      drawParentUnit probe cfg rects u P C
        = pre ++ addLine probe cfg.statusColors (u ++ "-trunk")
              { x := j.x, y := j.y } { x := j.x, y := barY } cfg.trunk (unitStatus P)
          :: addLine probe cfg.statusColors (u ++ "-bar")
              { x := xmin, y := barY } { x := xmax, y := barY }
              cfg.siblingBus (unitStatus P)
          :: drops
      ∧ barY = foldMin c.rect.top (cs.map (fun e => e.rect.top)) - cfg.anchors.verticalGapPx
      ∧ (∀ e ∈ c :: cs, e.anchor = { x := e.rect.left + e.rect.width / 2, y := e.rect.top })
      ∧ xmin ≤ j.x ∧ j.x ≤ xmax
      ∧ (∀ e ∈ c :: cs, xmin ≤ e.anchor.x ∧ e.anchor.x ≤ xmax)
      ∧ (xmin = j.x ∨ ∃ e ∈ c :: cs, xmin = e.anchor.x)
      ∧ (xmax = j.x ∨ ∃ e ∈ c :: cs, xmax = e.anchor.x) := by
  have hanchor : ∀ e ∈ c :: cs, e.anchor = topCenter e.rect := by
    intro e he
    exact (childEntriesOf_mem_spec e (hC ▸ he)).2.1
  have hanchor2 : ∀ e ∈ c :: cs,
      e.anchor = { x := e.rect.left + e.rect.width / 2, y := e.rect.top } := hanchor
  have hmain : drawParentUnit probe cfg rects u P C
      = coupleSegsOf probe cfg rects u P
        ++ addLine probe cfg.statusColors (u ++ "-trunk")
            { x := j.x, y := j.y }
            { x := j.x
              y := foldMin c.anchor.y (cs.map (fun e => e.anchor.y))
                - cfg.anchors.verticalGapPx } cfg.trunk (unitStatus P)
          :: addLine probe cfg.statusColors (u ++ "-bar")
            { x := foldMin j.x ((c :: cs).map (fun e => e.anchor.x))
              y := foldMin c.anchor.y (cs.map (fun e => e.anchor.y))
                - cfg.anchors.verticalGapPx }
            { x := foldMax j.x ((c :: cs).map (fun e => e.anchor.x))
              y := foldMin c.anchor.y (cs.map (fun e => e.anchor.y))
                - cfg.anchors.verticalGapPx }
            cfg.siblingBus (unitStatus P)
          :: (c :: cs).map (fun e =>
              addLine probe cfg.statusColors (u ++ "-drop-" ++ e.member.id)
                { x := e.anchor.x
                  y := foldMin c.anchor.y (cs.map (fun e => e.anchor.y))
                    - cfg.anchors.verticalGapPx }
                { x := e.anchor.x, y := e.anchor.y } cfg.drop e.member.status) := by
    rw [drawParentUnit_main hJ hC]
    rfl
  have hbarY : foldMin c.anchor.y (cs.map (fun e => e.anchor.y)) - cfg.anchors.verticalGapPx
      = foldMin c.rect.top (cs.map (fun e => e.rect.top)) - cfg.anchors.verticalGapPx := by
    have hcy : c.anchor.y = c.rect.top := by
      rw [hanchor c (List.mem_cons_self c cs)]
      rfl
    have hmy : cs.map (fun e => e.anchor.y) = cs.map (fun e => e.rect.top) := by
      refine List.map_congr_left ?_
      intro e he
      rw [hanchor e (List.mem_cons_of_mem c he)]
      rfl
    rw [hcy, hmy]
  have hbounds : ∀ e ∈ c :: cs,
      foldMin j.x ((c :: cs).map (fun d => d.anchor.x)) ≤ e.anchor.x
      ∧ e.anchor.x ≤ foldMax j.x ((c :: cs).map (fun d => d.anchor.x)) := by
    intro e he
    have hmm : e.anchor.x ∈ (c :: cs).map (fun d => d.anchor.x) :=
      List.mem_map_of_mem (fun d => d.anchor.x) he
    constructor
    · apply foldMin_le_mem
      exact hmm
    · apply foldMax_ge_mem
      exact hmm
  have hminmem : foldMin j.x ((c :: cs).map (fun e => e.anchor.x)) = j.x
      ∨ ∃ e ∈ c :: cs, foldMin j.x ((c :: cs).map (fun e => e.anchor.x)) = e.anchor.x := by
    rcases foldMin_mem j.x ((c :: cs).map (fun e => e.anchor.x)) with h | h
    · exact Or.inl h
    · rcases List.mem_map.mp h with ⟨e, he, hx⟩
      exact Or.inr ⟨e, he, hx.symm⟩
  have hmaxmem : foldMax j.x ((c :: cs).map (fun e => e.anchor.x)) = j.x
      ∨ ∃ e ∈ c :: cs, foldMax j.x ((c :: cs).map (fun e => e.anchor.x)) = e.anchor.x := by
    rcases foldMax_mem j.x ((c :: cs).map (fun e => e.anchor.x)) with h | h
    · exact Or.inl h
    · rcases List.mem_map.mp h with ⟨e, he, hx⟩
      exact Or.inr ⟨e, he, hx.symm⟩
  refine ⟨_, _, _, _, _, hmain, hbarY, hanchor2, ?_, ?_, hbounds, hminmem, hmaxmem⟩
  · apply foldMin_le_start
  · apply foldMax_ge_start

/-- The child entry of `"k"` in the witness scenarios. -/
def entryK : ChildEntry :=
  { member := leafMember "k" none, rect := rectK, anchor := topCenter rectK }

/-- The child entry of `"q"` in the witness scenarios. -/
def entryQ : ChildEntry :=
  { member := leafMember "q" none, rect := rectQ, anchor := topCenter rectQ }

/-- Witness for C1: one measured parent `"f"` (junction at its
bottom-center) and two measured children `"k"`, `"q"`. -/
theorem sibling_bus_and_trunk_geometry_witness :
    unitJunction defaultPreset.anchors.coupleInsetPx rectsA [leafMember "f" none]
      = some { x := rectF.left + rectF.width / 2, y := rectF.bottom }
    ∧ childEntriesOf rectsA [leafMember "k" none, leafMember "q" none] = [entryK, entryQ]
    ∧ (∃ pre drops barY xmin xmax,
        drawParentUnit idProbe defaultPreset rectsA "root-single" [leafMember "f" none]
            [leafMember "k" none, leafMember "q" none]
          = pre ++ addLine idProbe defaultPreset.statusColors ("root-single" ++ "-trunk")
                { x := Point.x { x := rectF.left + rectF.width / 2, y := rectF.bottom }
                  y := Point.y { x := rectF.left + rectF.width / 2, y := rectF.bottom } }
                { x := Point.x { x := rectF.left + rectF.width / 2, y := rectF.bottom }
                  y := barY } defaultPreset.trunk
                (unitStatus [leafMember "f" none])
            :: addLine idProbe defaultPreset.statusColors ("root-single" ++ "-bar")
                { x := xmin, y := barY } { x := xmax, y := barY }
                defaultPreset.siblingBus (unitStatus [leafMember "f" none])
            :: drops
        ∧ barY = foldMin entryK.rect.top ([entryQ].map (fun e => e.rect.top))
            - defaultPreset.anchors.verticalGapPx
        ∧ (∀ e ∈ [entryK, entryQ],
            e.anchor = { x := e.rect.left + e.rect.width / 2, y := e.rect.top })
        ∧ xmin ≤ Point.x { x := rectF.left + rectF.width / 2, y := rectF.bottom }
        ∧ Point.x { x := rectF.left + rectF.width / 2, y := rectF.bottom } ≤ xmax
        ∧ (∀ e ∈ [entryK, entryQ], xmin ≤ e.anchor.x ∧ e.anchor.x ≤ xmax)
        ∧ (xmin = Point.x { x := rectF.left + rectF.width / 2, y := rectF.bottom }
            ∨ ∃ e ∈ [entryK, entryQ], xmin = e.anchor.x)
        ∧ (xmax = Point.x { x := rectF.left + rectF.width / 2, y := rectF.bottom }
            ∨ ∃ e ∈ [entryK, entryQ], xmax = e.anchor.x)) :=
  ⟨rfl, rfl,
    sibling_bus_and_trunk_geometry idProbe defaultPreset rectsA "root-single"
      [leafMember "f" none] [leafMember "k" none, leafMember "q" none]
      { x := rectF.left + rectF.width / 2, y := rectF.bottom } entryK [entryQ] rfl rfl⟩

/-- Amended C4: couple-line, trunk and sibling-bus segments are coloured by
the unit's status — the first status found among the parent-set members in
list order, resolved through the status-colour mapping; when no member has a
status the mapping's `default` class is selected, and the segment type's own
colour class is used only when the selected status class is the empty
string. -/
theorem segment_stroke_status_precedence (probe : ColorProbe)
    (cfg : FamilyTreeConnectorConfig) (rects : String → Option RelativeRect)
    (u : String) (P C : List FamilyMember) (l r : ParentEntry)
    (rest : List ParentEntry) (c : ChildEntry) (cs : List ChildEntry)
    (hS : sortByLeft (parentEntriesOf rects P) = l :: r :: rest)
    (hC : childEntriesOf rects C = c :: cs) :
    ∃ cSeg tSeg bSeg dropSegs stClass,
      drawParentUnit probe cfg rects u P C = cSeg :: tSeg :: bSeg :: dropSegs
      ∧ stClass = (match unitStatus P with
          | some st => statusClassFor cfg.statusColors st
          | none => cfg.statusColors.default)
      ∧ cSeg.id = u ++ "-couple" ∧ tSeg.id = u ++ "-trunk" ∧ bSeg.id = u ++ "-bar"
      ∧ cSeg.stroke = resolveColorFromClass probe
          (if stClass = "" then cfg.coupleLine.colorClass else stClass)
      ∧ tSeg.stroke = resolveColorFromClass probe
          (if stClass = "" then cfg.trunk.colorClass else stClass)
      ∧ bSeg.stroke = resolveColorFromClass probe
          (if stClass = "" then cfg.siblingBus.colorClass else stClass)
      ∧ (∀ m ms, P = m :: ms → m.status.isSome = true → unitStatus P = m.status)
      ∧ (∀ m ms, P = m :: ms → m.status = none → unitStatus P = unitStatus ms) := by
  have hJ : unitJunction cfg.anchors.coupleInsetPx rects P
      = some { x := ((sideInner cfg.anchors.coupleInsetPx l.rect Side.right).x
                      + (sideInner cfg.anchors.coupleInsetPx r.rect Side.left).x) / 2
               y := (sideInner cfg.anchors.coupleInsetPx l.rect Side.right).y } :=
    unitJunction_of_two cfg.anchors.coupleInsetPx hS
  have hmain : drawParentUnit probe cfg rects u P C = _ := drawParentUnit_main hJ hC
  rw [coupleSegsOf_of_two hS] at hmain
  refine ⟨_, _, _, _, _, by rw [hmain]; rfl, rfl, rfl, rfl, rfl, ?_, ?_, ?_, ?_, ?_⟩
  · show resolveLineStroke probe cfg.statusColors cfg.coupleLine (unitStatus P) = _
    unfold resolveLineStroke
    rfl
  · show resolveLineStroke probe cfg.statusColors cfg.trunk (unitStatus P) = _
    unfold resolveLineStroke
    rfl
  · show resolveLineStroke probe cfg.statusColors cfg.siblingBus (unitStatus P) = _
    unfold resolveLineStroke
    rfl
  · intro m ms hP hst
    rw [hP]
    exact unitStatus_cons_pos hst
  · intro m ms hP hst
    rw [hP]
    exact unitStatus_cons_neg (by rw [hst]; rfl)

/-- Witness for the amended C4 at a concrete status-free couple with one
child. -/
theorem segment_stroke_status_precedence_witness :
    sortByLeft (parentEntriesOf rectsA [leafMember "f" none, leafMember "m" none])
      = [{ member := leafMember "f" none, rect := rectF },
         { member := leafMember "m" none, rect := rectM }]
    ∧ childEntriesOf rectsA [leafMember "k" none] = [entryK]
    ∧ (∃ cSeg tSeg bSeg dropSegs stClass,
        drawParentUnit idProbe defaultPreset rectsA "parents"
            [leafMember "f" none, leafMember "m" none] [leafMember "k" none]
          = cSeg :: tSeg :: bSeg :: dropSegs
        ∧ stClass = (match unitStatus [leafMember "f" none, leafMember "m" none] with
            | some st => statusClassFor defaultPreset.statusColors st
            | none => defaultPreset.statusColors.default)
        ∧ cSeg.id = "parents" ++ "-couple" ∧ tSeg.id = "parents" ++ "-trunk"
        ∧ bSeg.id = "parents" ++ "-bar"
        ∧ cSeg.stroke = resolveColorFromClass idProbe
            (if stClass = "" then defaultPreset.coupleLine.colorClass else stClass)
        ∧ tSeg.stroke = resolveColorFromClass idProbe
            (if stClass = "" then defaultPreset.trunk.colorClass else stClass)
        ∧ bSeg.stroke = resolveColorFromClass idProbe
            (if stClass = "" then defaultPreset.siblingBus.colorClass else stClass)
        ∧ (∀ m ms, [leafMember "f" none, leafMember "m" none] = m :: ms →
            m.status.isSome = true →
            unitStatus [leafMember "f" none, leafMember "m" none] = m.status)
        ∧ (∀ m ms, [leafMember "f" none, leafMember "m" none] = m :: ms →
            m.status = none →
            unitStatus [leafMember "f" none, leafMember "m" none] = unitStatus ms)) :=
  ⟨rfl, rfl,
    segment_stroke_status_precedence idProbe defaultPreset rectsA "parents"
      [leafMember "f" none, leafMember "m" none] [leafMember "k" none]
      { member := leafMember "f" none, rect := rectF }
      { member := leafMember "m" none, rect := rectM } [] entryK [] rfl rfl⟩

/-- The override of the C4 counterexample: a couple-line colour class that
differs from the status mapping's default class. -/
def redOverride : ConnectorConfigOverride :=
  { coupleLine := some { colorClass := some "bg-red-500" } }

/-- Config of the C4 counterexample. -/
def cfgRed : FamilyTreeConnectorConfig := getFamilyTreeConfig "default" (some redOverride)

/-- A status-free root with a status-free spouse and no children. -/
def rootSpouse : FamilyMember := .mk "r" none [] [] [] (some (leafMember "s" none))

/-- Measured rectangles for `rootSpouse` and its spouse. -/
def rectsRS : String → Option RelativeRect := fun i =>
  if i = "r" then some rectF
  else if i = "s" then some rectM
  else none

/-- Counterexample to C4 as stated: in a unit whose parent-set members all
lack a status, the emitted couple line's stroke is resolved from the status
mapping's `default` class (`"bg-stroke-default"`), not from the couple-line
style's own colour class (`"bg-red-500"`). -/
theorem segment_stroke_claim_counterexample :
    (computeLineSegments idProbe cfgRed rectsRS rootSpouse).map (fun s => (s.id, s.stroke))
      = [("root-couple-couple", "bg-stroke-default")]
    ∧ rootSpouse.status = none
    ∧ (leafMember "s" none).status = none
    ∧ cfgRed.coupleLine.colorClass = "bg-red-500"
    ∧ resolveColorFromClass idProbe cfgRed.coupleLine.colorClass = "bg-red-500"
    ∧ ("bg-stroke-default" : String) ≠ "bg-red-500" :=
  ⟨rfl, rfl, rfl, rfl, rfl, by decide⟩

/-- Amended C5: the identifiers of the segments emitted by one measurement
pass are pairwise distinct provided the measured members of each unit's
child set (siblings plus root for the parents unit, the root's children for
the root unit) have pairwise-distinct identifiers.  Without that proviso
the ids can collide (see the counterexample). -/
theorem segment_ids_nodup_of_distinct_child_ids (probe : ColorProbe)
    (cfg : FamilyTreeConnectorConfig) (rects : String → Option RelativeRect)
    (root : FamilyMember)
    (h₁ : ((childEntriesOf rects (root.siblings ++ [root])).map
        (fun e => e.member.id)).Nodup)
    (h₂ : ((childEntriesOf rects root.children).map (fun e => e.member.id)).Nodup) :
    ((computeLineSegments probe cfg rects root).map (fun s => s.id)).Nodup := by
  simp only [computeLineSegments]
  rw [List.map_append]
  refine List.Nodup.append ?_ ?_ ?_
  · cases hv : root.parents.isEmpty with
    | true => simp
    | false =>
      simp only [Bool.false_eq_true, if_false]
      exact drawParentUnit_ids_nodup probe cfg rects "parents" root.parents
        (root.siblings ++ [root]) h₁
  · cases hsp : root.spouse with
    | none =>
      cases hv : root.children.isEmpty with
      | true => simp
      | false =>
        simp only [Bool.false_eq_true, if_false]
        exact drawParentUnit_ids_nodup probe cfg rects "root-single" [root]
          root.children h₂
    | some s =>
      exact drawParentUnit_ids_nodup probe cfg rects "root-couple" [root, s]
        root.children h₂
  · intro a ha hb
    have hp : ∃ sfx, a = "parents" ++ sfx := by
      cases hv : root.parents.isEmpty with
      | true => rw [hv] at ha; simp at ha
      | false =>
        rw [hv] at ha
        simp only [Bool.false_eq_true, if_false] at ha
        exact mem_drawParentUnit_id_prefix ha
    obtain ⟨sfx₁, rfl⟩ := hp
    cases hsp : root.spouse with
    | none =>
      cases hv : root.children.isEmpty with
      | true => rw [hsp, hv] at hb; simp at hb
      | false =>
        rw [hsp, hv] at hb
        simp only [Bool.false_eq_true, if_false] at hb
        obtain ⟨sfx₂, hx⟩ := mem_drawParentUnit_id_prefix hb
        exact parentsPrefix_ne_rootSingle sfx₁ sfx₂ hx
    | some s =>
      rw [hsp] at hb
      obtain ⟨sfx₂, hx⟩ := mem_drawParentUnit_id_prefix hb
      exact parentsPrefix_ne_rootCouple sfx₁ sfx₂ hx

/-- Root of the C5 witness: parent `"f"`, sibling `"k"`, child `"q"`. -/
def rootW : FamilyMember :=
  .mk "r" none [leafMember "f" none] [leafMember "k" none] [leafMember "q" none] none

/-- Witness for the amended C5. -/
theorem segment_ids_nodup_of_distinct_child_ids_witness :
    ((childEntriesOf rectsA (rootW.siblings ++ [rootW])).map (fun e => e.member.id)).Nodup
    ∧ ((childEntriesOf rectsA rootW.children).map (fun e => e.member.id)).Nodup
    ∧ ((computeLineSegments idProbe defaultPreset rectsA rootW).map (fun s => s.id)).Nodup :=
  ⟨by decide, by decide,
    segment_ids_nodup_of_distinct_child_ids idProbe defaultPreset rectsA rootW
      (by decide) (by decide)⟩

/-- Root of the C5 counterexample: a sibling carries the root's own id
`"r"`, so the same member identifier appears in two relationship positions
of the tree. -/
def rootDup : FamilyMember :=
  .mk "r" none [leafMember "f" none] [leafMember "r" none] [] none

/-- Measured rectangles of the C5 counterexample. -/
def rectsDup : String → Option RelativeRect := fun i =>
  if i = "f" then some rectF
  else if i = "r" then some rectK
  else none

/-- Counterexample to C5 as stated: with a sibling sharing the root's id,
the parents unit emits two drop segments with the identical id
`"parents-drop-r"`, so the emitted identifiers are not pairwise distinct. -/
theorem segment_ids_duplicate_counterexample :
    rootDup.siblings = [leafMember "r" none]
    ∧ rootDup.id = "r" ∧ (leafMember "r" none).id = "r"
    ∧ (computeLineSegments idProbe defaultPreset rectsDup rootDup).map (fun s => s.id)
        = ["parents-trunk", "parents-bar", "parents-drop-r", "parents-drop-r"]
    ∧ ¬ ((computeLineSegments idProbe defaultPreset rectsDup rootDup).map
        (fun s => s.id)).Nodup :=
  ⟨rfl, rfl, rfl, rfl, by decide⟩

/-- C8: members without a measured rectangle contribute nothing — dropping
them from the child set leaves the unit's segments unchanged, dropping them
from the parent set leaves the resolved parent entries (hence all geometry)
unchanged, and no drop segment ever carries an unmeasured member's id.
The whole pass is a total function, so it can never throw or abort. -/
theorem unmeasured_members_contribute_nothing :
    (∀ (probe : ColorProbe) (cfg : FamilyTreeConnectorConfig)
        (rects : String → Option RelativeRect) (u : String) (P C : List FamilyMember),
      drawParentUnit probe cfg rects u P (C.filter (fun m => (rects m.id).isSome))
        = drawParentUnit probe cfg rects u P C)
    ∧ (∀ (rects : String → Option RelativeRect) (P : List FamilyMember),
      parentEntriesOf rects (P.filter (fun m => (rects m.id).isSome))
        = parentEntriesOf rects P)
    ∧ (∀ (probe : ColorProbe) (cfg : FamilyTreeConnectorConfig)
        (rects : String → Option RelativeRect) (u : String) (P C : List FamilyMember)
        (m : FamilyMember), rects m.id = none →
      ∀ s ∈ drawParentUnit probe cfg rects u P C, s.id ≠ u ++ "-drop-" ++ m.id) := by
  refine ⟨drawParentUnit_filter_children, parentEntriesOf_filter, ?_⟩
  intro probe cfg rects u P C m hm s hs hid
  obtain ⟨cp, tp, heq, hcp, htp⟩ := drawParentUnit_ids probe cfg rects u P C
  have hmem : s.id ∈ cp ++ tp := by
    have hmap := List.mem_map_of_mem (fun s => s.id) hs
    rw [heq] at hmap
    exact hmap
  rcases List.mem_append.mp hmem with h | h
  · rcases hcp with h0 | ⟨_, h0⟩
    · subst h0; cases h
    · subst h0
      rcases List.mem_singleton.mp h with h1
      have hcontra : u ++ "-drop-" ++ m.id = u ++ "-couple" := by rw [← hid, h1]
      exact unit_dropId_ne (dropSuffix_ne_couple m.id) hcontra
  · rcases htp with h0 | ⟨c, cs, hC, h0⟩
    · subst h0; cases h
    · subst h0
      rcases List.mem_cons.mp h with h1 | h1
      · have hcontra : u ++ "-drop-" ++ m.id = u ++ "-trunk" := by rw [← hid, h1]
        exact unit_dropId_ne (dropSuffix_ne_trunk m.id) hcontra
      rcases List.mem_cons.mp h1 with h2 | h2
      · have hcontra : u ++ "-drop-" ++ m.id = u ++ "-bar" := by rw [← hid, h2]
        exact unit_dropId_ne (dropSuffix_ne_bar m.id) hcontra
      rcases List.mem_map.mp h2 with ⟨e, he, h3⟩
      have hmeas : rects e.member.id = some e.rect :=
        (childEntriesOf_mem_spec e (hC ▸ he)).1
      have hids : e.member.id = m.id := by
        have hca : (u ++ "-drop-") ++ e.member.id = (u ++ "-drop-") ++ m.id := by
          rw [h3, hid]
        exact string_append_cancel_left hca
      rw [hids, hm] at hmeas
      cases hmeas

/-- Witness for C8: the unmeasured member `"z"` never appears in a drop id,
and filtering it out of the child set leaves the segments unchanged. -/
theorem unmeasured_members_contribute_nothing_witness :
    rectsDup "z" = none
    ∧ ("parents" ++ "-drop-" ++ (leafMember "z" none).id)
        ∉ (drawParentUnit idProbe defaultPreset rectsDup "parents"
            [leafMember "f" none] [leafMember "z" none, leafMember "r" none]).map
            (fun s => s.id)
    ∧ drawParentUnit idProbe defaultPreset rectsDup "parents" [leafMember "f" none]
        ([leafMember "z" none, leafMember "r" none].filter
          (fun m => (rectsDup m.id).isSome))
      = drawParentUnit idProbe defaultPreset rectsDup "parents" [leafMember "f" none]
        [leafMember "z" none, leafMember "r" none] :=
  ⟨rfl,
    fun hmem => by
      rcases List.mem_map.mp hmem with ⟨s, hs, hsid⟩
      exact unmeasured_members_contribute_nothing.2.2 idProbe defaultPreset rectsDup
        "parents" [leafMember "f" none] [leafMember "z" none, leafMember "r" none]
        (leafMember "z" none) rfl s hs hsid,
    unmeasured_members_contribute_nothing.1 idProbe defaultPreset rectsDup
      "parents" [leafMember "f" none] [leafMember "z" none, leafMember "r" none]⟩

/-- C9: one measurement pass reads only the root member's own id and status,
and the ids and statuses of its parents, siblings, children and spouse —
pruning every deeper generation from the tree (however redundant or
self-referential the nesting is) leaves the emitted segments unchanged.
The pass is a structurally recursive total function, so it terminates on
every input. -/
theorem engine_reads_only_one_level (probe : ColorProbe)
    (cfg : FamilyTreeConnectorConfig) (rects : String → Option RelativeRect)
    (root : FamilyMember) :
    computeLineSegments probe cfg rects (pruneDeep root)
      = computeLineSegments probe cfg rects root := by
  refine computeLineSegments_congr (memberKey_pruneDeep root) ?_ ?_ ?_ ?_
  · exact map_memberKey_pruneShallow root.parents
  · exact map_memberKey_pruneShallow root.siblings
  · exact map_memberKey_pruneShallow root.children
  · show (root.spouse.map pruneShallow).map memberKey = root.spouse.map memberKey
    cases hs : root.spouse with
    | none => rfl
    | some s => rfl

/-- C10: a root with a spouse, an empty children list and measured
rectangles for both root and spouse gets exactly one segment in its own
unit — the couple line — with no trunk, bus or drop, and the whole pass is
the parents-unit segments followed by just that couple segment. -/
theorem spouse_without_children_single_couple_line (probe : ColorProbe)
    (cfg : FamilyTreeConnectorConfig) (rects : String → Option RelativeRect)
    (root sp : FamilyMember) (r₁ r₂ : RelativeRect)
    (hsp : root.spouse = some sp)
    (hch : root.children = [])
    (h₁ : rects root.id = some r₁)
    (h₂ : rects sp.id = some r₂) :
    ∃ seg, drawParentUnit probe cfg rects "root-couple" [root, sp] root.children = [seg]
      ∧ seg.id = "root-couple" ++ "-couple"
      ∧ computeLineSegments probe cfg rects root
          = (if root.parents.isEmpty then []
             else drawParentUnit probe cfg rects "parents" root.parents
               (root.siblings ++ [root]))
            ++ [seg] := by
  have hpe : parentEntriesOf rects [root, sp]
      = [{ member := root, rect := r₁ }, { member := sp, rect := r₂ }] := by
    rw [parentEntriesOf_cons_some h₁, parentEntriesOf_cons_some h₂]
    rfl
  have hempty : childEntriesOf rects root.children = [] := by
    rw [hch]
    rfl
  have hnc : drawParentUnit probe cfg rects "root-couple" [root, sp] root.children
      = coupleSegsOf probe cfg rects "root-couple" [root, sp] :=
    drawParentUnit_no_children (Or.inr hempty)
  have hsplit : ∃ l r, sortByLeft (parentEntriesOf rects [root, sp]) = [l, r] := by
    rw [hpe]
    by_cases hb : byLeft { member := root, rect := r₁ } { member := sp, rect := r₂ }
    · refine ⟨{ member := root, rect := r₁ }, { member := sp, rect := r₂ }, ?_⟩
      simp only [sortByLeft, List.insertionSort, List.orderedInsert]
      rw [if_pos hb]
    · refine ⟨{ member := sp, rect := r₂ }, { member := root, rect := r₁ }, ?_⟩
      simp only [sortByLeft, List.insertionSort, List.orderedInsert]
      rw [if_neg hb]
  obtain ⟨l, r, hsort⟩ := hsplit
  rw [coupleSegsOf_of_two hsort] at hnc
  refine ⟨_, hnc, rfl, ?_⟩
  simp only [computeLineSegments]
  rw [hsp, ← hnc]

/-- Witness for C10 at the concrete spouse couple with no children. -/
theorem spouse_without_children_single_couple_line_witness :
    rootSpouse.spouse = some (leafMember "s" none)
    ∧ rootSpouse.children = []
    ∧ rectsRS rootSpouse.id = some rectF
    ∧ rectsRS (leafMember "s" none).id = some rectM
    ∧ (∃ seg, drawParentUnit idProbe defaultPreset rectsRS "root-couple"
          [rootSpouse, leafMember "s" none] rootSpouse.children = [seg]
        ∧ seg.id = "root-couple" ++ "-couple"
        ∧ computeLineSegments idProbe defaultPreset rectsRS rootSpouse
            = (if rootSpouse.parents.isEmpty then []
               else drawParentUnit idProbe defaultPreset rectsRS "parents"
                 rootSpouse.parents (rootSpouse.siblings ++ [rootSpouse]))
              ++ [seg]) :=
  ⟨rfl, rfl, rfl, rfl,
    spouse_without_children_single_couple_line idProbe defaultPreset rectsRS
      rootSpouse (leafMember "s" none) rectF rectM rfl rfl rfl rfl⟩
